import Mathlib

/-!
The package mongosteps: a shallow embedding of the step manager

The Go package `mongosteps` (files `context.go`, `convert.go`, `database.go`,
`manager.go`) is embedded as pure Lean functions.

* Go strings are `String`; byte slices holding text (`[]byte`) are `List Char`.
* A Go slice of documents is `Option (List Doc)`: `none` is the nil slice,
  `some l` a non-nil slice with elements `l`.
* A Go `error` is `Option GoError`: `none` is the nil error.
* The mongo driver is external: it is a record of transition functions over an
  arbitrary driver state `σ`, and every database operation threads that state.
* The BSON / JSON libraries and the JSON comparer are external: they are the
  fields of `Lib`.
-/

set_option autoImplicit false

namespace Mongosteps

/-! ## Go errors and formatting -/

/-- A Go error value: either created with a message (`errors.New`, `fmt.Errorf`
without `%w`) or wrapping another error (`fmt.Errorf` with `%w`). -/
inductive GoError where
  | new (msg : String)
  | wrap (msg : String) (inner : GoError)
  deriving DecidableEq, Repr

/-- The text `err.Error()` returns. -/
def GoError.message : GoError → String
  | .new msg => msg
  | .wrap msg _ => msg

/-- The result of `errors.Unwrap`. -/
def GoError.unwrap : GoError → Option GoError
  | .new _ => none
  | .wrap _ inner => some inner

/-- The call `fmt.Errorf(pre + ": %w", err)`: the message is the prefix, a colon
and a blank, then the message of the wrapped error. -/
def errorfW (pre : String) (err : GoError) : GoError :=
  .wrap (pre ++ ": " ++ err.message) err

/-- The message of a Go error result, the empty string standing for nil. -/
def errText : Option GoError → String
  | none => ""
  | some e => e.message

deriving instance DecidableEq for Except

/-- The sixteen digits `strconv` uses for hexadecimal escapes. -/
def lowerhex (n : Nat) : Char :=
  match n % 16 with
  | 0 => '0' | 1 => '1' | 2 => '2' | 3 => '3' | 4 => '4' | 5 => '5' | 6 => '6' | 7 => '7'
  | 8 => '8' | 9 => '9' | 10 => 'a' | 11 => 'b' | 12 => 'c' | 13 => 'd' | 14 => 'e' | _ => 'f'

/-- The hexadecimal digits of `n`, most significant first, `width` of them. -/
def hexDigits : Nat → Nat → List Char
  | 0, _ => []
  | width + 1, n => lowerhex (n / 16 ^ width) :: hexDigits width n

/-- The test `strconv.IsPrint`: decided here for ASCII, where the printable
runes are the ones from the blank to the tilde, and left to the Unicode table
`table` for every other rune. -/
def isPrintRune (table : Char → Bool) (r : Char) : Bool :=
  if r.toNat < 0x80 then decide (0x20 ≤ r.toNat) && decide (r.toNat < 0x7F) else table r

/-- The function `appendEscapedRune` of `strconv` for the double quote, as `%q`
uses it: the quote and the backslash are backslashed, printable runes are kept,
and the others become an escape sequence. -/
def escapeRune (table : Char → Bool) (r : Char) : List Char :=
  if r = '"' ∨ r = '\\' then ['\\', r]
  else if isPrintRune table r then [r]
  else if r.toNat = 7 then ['\\', 'a']
  else if r.toNat = 8 then ['\\', 'b']
  else if r.toNat = 12 then ['\\', 'f']
  else if r.toNat = 10 then ['\\', 'n']
  else if r.toNat = 13 then ['\\', 'r']
  else if r.toNat = 9 then ['\\', 't']
  else if r.toNat = 11 then ['\\', 'v']
  else if r.toNat < 0x20 ∨ r.toNat = 0x7F then '\\' :: 'x' :: hexDigits 2 r.toNat
  else if r.toNat < 0x10000 then '\\' :: 'u' :: hexDigits 4 r.toNat
  else '\\' :: 'U' :: hexDigits 8 r.toNat

/-- The verb `%q` applied to a string: `strconv.Quote`. -/
def quote (table : Char → Bool) (s : String) : String :=
  String.mk ('"' :: (s.toList.flatMap (escapeRune table) ++ ['"']))

/-- The decimal digits of a natural number, least significant first; `fuel`
bounds the number of digits. -/
def natDigitsRev : Nat → Nat → List Char
  | 0, _ => []
  | fuel + 1, n => lowerhex (n % 10) :: (if n < 10 then [] else natDigitsRev fuel (n / 10))

/-- The verb `%d` applied to a natural number. -/
def fmtNat (n : Nat) : String :=
  String.mk (natDigitsRev (n + 1) n).reverse

/-- The verb `%d` applied to an `int64`. -/
def fmtInt : Int → String
  | .ofNat n => fmtNat n
  | .negSucc n => "-" ++ fmtNat (n + 1)

/-! ## The context carrier (`context.go`) -/

/-- Keys of context values: the package's private `queryerCtxKey`, or a key of
some other package. -/
inductive CtxKey where
  | queryer
  | foreign (id : Nat)
  deriving DecidableEq, Repr

/-- A value stored in a context: a document slice (possibly the nil slice), or a
value of some other type. -/
inductive CtxValue (Doc : Type) where
  | docs (d : Option (List Doc))
  | other (id : Nat)
  deriving DecidableEq, Repr

/-- A Go `context.Context`, as far as its values go: the background context, or
a parent extended with one key and value (`context.WithValue`). -/
inductive Context (Doc : Type) where
  | background
  | withValue (parent : Context Doc) (key : CtxKey) (val : CtxValue Doc)
  deriving DecidableEq, Repr

/-- The method `ctx.Value(key)`: the innermost value stored under the key. -/
def Context.value {Doc : Type} : Context Doc → CtxKey → Option (CtxValue Doc)
  | .background, _ => none
  | .withValue parent k v, key => if k = key then some v else parent.value key

/-- The function `contextWithDocs`. -/
def contextWithDocs {Doc : Type} (ctx : Context Doc) (docs : Option (List Doc)) : Context Doc :=
  .withValue ctx .queryer (.docs docs)

/-- The function `docsFromContext`: the stored slice when the value under the
key is a non-nil document slice, and the nil slice otherwise. -/
def docsFromContext {Doc : Type} (ctx : Context Doc) : Option (List Doc) :=
  match ctx.value .queryer with
  | some (.docs (some q)) => some q
  | _ => none

/-! ## External collaborators -/

/-- The value `bson.D`: an ordered list of keys and values. -/
abbrev BsonD (V : Type) := List (String × V)

/-- The options the package passes to `Find`: a limit and a sort document. -/
structure FindOptions where
  limit : Option Int
  sort : List (String × Int)
  deriving DecidableEq, Repr

/-- The options every query of the package uses:
`options.Find().SetLimit(0).SetSort(bson.D{{Key: "_id", Value: 1}})`. -/
def sortedById : FindOptions :=
  { limit := some 0, sort := [("_id", 1)] }

/-- A godog doc string; a nil pointer is `none : Option DocString`. -/
structure DocString where
  content : List Char
  deriving DecidableEq, Repr

/-- The mongo driver, over a driver state `σ`, connection handles `Conn` and
cursors `Cur`. Each call takes the collection name and returns its result with
the next driver state. -/
structure Driver (σ Conn Cur Doc V : Type) where
  /-- The call `conn.Collection(c).Find(ctx, filter, opts...)`. -/
  find : Conn → String → BsonD V → FindOptions → σ → Except GoError Cur × σ
  /-- The call `cursor.All(ctx, &result)` on a nil `result`. -/
  cursorAll : Cur → σ → Except GoError (Option (List Doc)) × σ
  /-- The deferred `cursor.Close(ctx)`, whose error is dropped. -/
  cursorClose : Cur → σ → σ
  /-- The call `conn.Collection(c).DeleteMany(ctx, filter)`. -/
  deleteMany : Conn → String → BsonD V → σ → Option GoError × σ
  /-- The call `conn.Collection(c).InsertMany(ctx, documents)`. -/
  insertMany : Conn → String → List Doc → σ → Option GoError × σ
  /-- The call `conn.Collection(c).CountDocuments(ctx, filter)`. -/
  countDocuments : Conn → String → BsonD V → σ → Except GoError Int × σ

/-- The libraries the package calls besides the driver. -/
structure Lib (Doc V : Type) where
  /-- The table behind `strconv.IsPrint` for the runes outside ASCII. -/
  isPrint : Char → Bool
  /-- The call `bson.UnmarshalExtJSON(data, true, &docs)` on a nil `docs`. -/
  unmarshalDocs : List Char → Except GoError (Option (List Doc))
  /-- The call `bson.UnmarshalExtJSON(data, true, &result)` on a `bson.D`. -/
  unmarshalD : List Char → Except GoError (BsonD V)
  /-- The method `bsoncore.Document.String`. -/
  docString : Doc → List Char
  /-- The encoding `encoding/json` gives one `json.RawMessage`: the compacted,
  HTML-escaped text, or an error when the message is not valid JSON. -/
  compact : List Char → Except GoError (List Char)
  /-- The call `assertjson.FailNotEqual(expected, actual)`. -/
  failNotEqual : List Char → List Char → Option GoError
  /-- The call `os.ReadFile(path.Clean(filePath))`. -/
  readFile : String → Except GoError (List Char)

/-! ## Conversion helpers (`convert.go`) -/

section Convert

variable {Doc V : Type}

/-- The function `bytesToDocs`. -/
def bytesToDocs (lib : Lib Doc V) (data : List Char) : Except GoError (Option (List Doc)) :=
  match lib.unmarshalDocs data with
  | .error err => .error (errorfW "error unmarshaling extjson" err)
  | .ok docs => .ok docs

/-- The function `stringToDocs`. -/
def stringToDocs (lib : Lib Doc V) (data : Option DocString) :
    Except GoError (Option (List Doc)) :=
  match data with
  | none => .error (.new "data is nil")
  | some d => bytesToDocs lib d.content

/-- The loop of `bytes.ReplaceAll` for a non-empty `old` (the only case the
package uses): at each position, leftmost first, an occurrence of `old` is
replaced by `new` and the scan goes on behind it. `fuel` bounds the number of
steps. -/
def replaceFuel (old new : List Char) : Nat → List Char → List Char
  | 0, s => s
  | _ + 1, [] => []
  | fuel + 1, c :: s =>
    if old <+: c :: s then new ++ replaceFuel old new fuel ((c :: s).drop old.length)
    else c :: replaceFuel old new fuel s

/-- The function `bytes.ReplaceAll(s, old, new)` for a non-empty `old`. -/
def replaceAll (s old new : List Char) : List Char :=
  replaceFuel old new s.length s

/-- The elements of a list of texts, joined with a separator. -/
def joinWith (sep : List Char) : List (List Char) → List Char
  | [] => []
  | [x] => x
  | x :: y :: rest => x ++ sep ++ joinWith sep (y :: rest)

/-- The text of a JSON array with the given encoded elements: an opening
bracket, the elements separated by commas, a closing bracket. -/
def arrayText (elems : List (List Char)) : List Char :=
  '[' :: (joinWith [','] elems ++ [']'])

/-- The encoder's pass over the elements of a slice of raw messages: each is
compacted in turn, and the first failure ends the pass. -/
def compactAll (lib : Lib Doc V) : List (List Char) → Except GoError (List (List Char))
  | [] => .ok []
  | m :: ms =>
    match lib.compact m with
    | .error err => .error err
    | .ok t =>
      match compactAll lib ms with
      | .error err => .error err
      | .ok ts => .ok (t :: ts)

/-- The call `json.Marshal` on a non-nil `[]json.RawMessage`: the array of the
encoded elements, or the error of the first element that cannot be encoded. -/
def jsonMarshal (lib : Lib Doc V) (msgs : List (List Char)) : Except GoError (List Char) :=
  match compactAll lib msgs with
  | .error err => .error (errorfW "json: error calling MarshalJSON for type json.RawMessage" err)
  | .ok ts => .ok (arrayText ts)

/-- The pattern `docsToExtJSON` searches for. -/
def escapedMarker : List Char := "\\u003cignored-diff\\u003e".toList

/-- The text `docsToExtJSON` puts in place of the pattern. -/
def literalMarker : List Char := "<ignore-diff>".toList

/-- The last step of `docsToExtJSON` on a text: every occurrence of the pattern
is replaced. -/
def normalizeMarker (t : List Char) : List Char :=
  replaceAll t escapedMarker literalMarker

/-- The function `docsToExtJSON`. -/
def docsToExtJSON (lib : Lib Doc V) (docs : Option (List Doc)) : Except GoError (List Char) :=
  if (docs.getD []).length = 0 then .ok ['[', ']']
  else
    match jsonMarshal lib ((docs.getD []).map lib.docString) with
    | .error err => .error (errorfW "error marshaling documents" err)
    | .ok data => .ok (replaceAll data escapedMarker literalMarker)

/-- The function `bytesToBSOND`. -/
def bytesToBSOND (lib : Lib Doc V) (data : List Char) : Except GoError (BsonD V) :=
  match lib.unmarshalD data with
  | .error err => .error (errorfW "error unmarshaling extjson" err)
  | .ok result => .ok result

/-- The function `stringToBSOND`. -/
def stringToBSOND (lib : Lib Doc V) (data : Option DocString) : Except GoError (BsonD V) :=
  match data with
  | none => .ok []
  | some d => bytesToBSOND lib d.content

end Convert

/-! ## The database wrapper (`database.go`) -/

/-- The struct `database`: a connection handle and the collections to truncate
after each scenario. -/
structure Database (Conn : Type) where
  conn : Conn
  cleanUps : List String

section DatabaseOps

variable {σ Conn Cur Doc V : Type}

/-- The method `database.truncate`. -/
def Database.truncate (drv : Driver σ Conn Cur Doc V) (lib : Lib Doc V) (d : Database Conn)
    (collection : String) (s : σ) : Option GoError × σ :=
  match drv.deleteMany d.conn collection [] s with
  | (some err, s1) =>
    (some (errorfW ("could not truncate collection " ++ quote lib.isPrint collection) err), s1)
  | (none, s1) => (none, s1)

/-- The loop of `database.cleanUp` over the remaining collections. -/
def cleanUpLoop (drv : Driver σ Conn Cur Doc V) (lib : Lib Doc V) (d : Database Conn) :
    List String → σ → Option GoError × σ
  | [], s => (none, s)
  | collection :: rest, s =>
    match d.truncate drv lib collection s with
    | (some err, s1) => (some err, s1)
    | (none, s1) => cleanUpLoop drv lib d rest s1

/-- The method `database.cleanUp`. -/
def Database.cleanUp (drv : Driver σ Conn Cur Doc V) (lib : Lib Doc V) (d : Database Conn)
    (s : σ) : Option GoError × σ :=
  cleanUpLoop drv lib d d.cleanUps s

/-- The method `database.find`. -/
def Database.find (drv : Driver σ Conn Cur Doc V) (lib : Lib Doc V) (d : Database Conn)
    (collection : String) (filter : BsonD V) (opts : FindOptions) (s : σ) :
    Except GoError (Option (List Doc)) × σ :=
  match drv.find d.conn collection filter opts s with
  | (.error err, s1) =>
    (.error (errorfW ("could not find documents in collection " ++ quote lib.isPrint collection)
      err), s1)
  | (.ok cursor, s1) =>
    match drv.cursorAll cursor s1 with
    | (.error err, s2) =>
      (.error (errorfW
        ("could not read documents from collection " ++ quote lib.isPrint collection) err),
        drv.cursorClose cursor s2)
    | (.ok result, s2) =>
      if (result.getD []).length = 0 then (.ok (some []), drv.cursorClose cursor s2)
      else (.ok result, drv.cursorClose cursor s2)

/-- The method `database.store`. -/
def Database.store (drv : Driver σ Conn Cur Doc V) (lib : Lib Doc V) (d : Database Conn)
    (collection : String) (docs : Option (List Doc)) (s : σ) : Option GoError × σ :=
  match drv.insertMany d.conn collection (docs.getD []) s with
  | (some err, s1) =>
    (some (errorfW ("could not insert documents into collection " ++ quote lib.isPrint collection)
      err), s1)
  | (none, s1) => (none, s1)

/-- The method `database.count`. -/
def Database.count (drv : Driver σ Conn Cur Doc V) (lib : Lib Doc V) (d : Database Conn)
    (collection : String) (filter : BsonD V) (s : σ) : Except GoError Int × σ :=
  match drv.countDocuments d.conn collection filter s with
  | (.error err, s1) =>
    (.error (errorfW ("could not count documents in collection " ++ quote lib.isPrint collection)
      err), s1)
  | (.ok count, s1) => (.ok count, s1)

/-- The function `newDatabase`: the options are applied in order to a database
with no clean-up collections. -/
def newDatabase (conn : Conn) (opts : List (Database Conn → Database Conn)) : Database Conn :=
  opts.foldl (fun d opt => opt d) { conn := conn, cleanUps := [] }

/-- The option `CleanUpAfterScenario`. -/
def CleanUpAfterScenario (collections : List String) : Database Conn → Database Conn :=
  fun d => { d with cleanUps := d.cleanUps ++ collections }

end DatabaseOps

/-! ## The manager (`manager.go`) -/

/-- The constant `defaultDatabase`. -/
def defaultDatabase : String := "default"

/-- The struct `Manager`: the map from database names to databases, kept as a
list of entries in which the first entry of a name is the one the map holds. -/
structure Manager (Conn : Type) where
  databases : List (String × Database Conn)

/-- The message of the assertions on a context without a search result. -/
def noSearchResult : GoError :=
  .new "no documents are available in the search result, did you forget to search?"

section ManagerOps

variable {σ Conn Cur Doc V : Type}

/-- The method `Manager.getDatabase`. -/
def Manager.getDatabase (lib : Lib Doc V) (m : Manager Conn) (dbName : String) :
    Except GoError (Database Conn) :=
  match m.databases.lookup dbName with
  | none =>
    .error (.new ("mongo database " ++ quote lib.isPrint dbName
      ++ " is not registered to the manager"))
  | some db => .ok db

/-- The method `Manager.noDocumentsInCollectionOfDatabase`. -/
def Manager.noDocumentsInCollectionOfDatabase (drv : Driver σ Conn Cur Doc V) (lib : Lib Doc V)
    (m : Manager Conn) (ctx : Context Doc) (collectionName dbName : String) (s : σ) :
    (Context Doc × Option GoError) × σ :=
  match m.getDatabase lib dbName with
  | .error err => ((ctx, some err), s)
  | .ok db =>
    match db.truncate drv lib collectionName s with
    | (err, s1) => ((ctx, err), s1)

/-- The method `Manager.theseDocumentsAreStoredInCollectionOfDatabase`. -/
def Manager.theseDocumentsAreStoredInCollectionOfDatabase (drv : Driver σ Conn Cur Doc V)
    (lib : Lib Doc V) (m : Manager Conn) (ctx : Context Doc) (collectionName dbName : String)
    (data : Option DocString) (s : σ) : (Context Doc × Option GoError) × σ :=
  match m.getDatabase lib dbName with
  | .error err => ((ctx, some err), s)
  | .ok db =>
    match stringToDocs lib data with
    | .error err => ((ctx, some (errorfW "failed to parse documents" err)), s)
    | .ok docs =>
      match db.store drv lib collectionName docs s with
      | (err, s1) => ((ctx, err), s1)

/-- The method `Manager.theseDocumentsFromFileAreStoredInCollectionOfDatabase`. -/
def Manager.theseDocumentsFromFileAreStoredInCollectionOfDatabase
    (drv : Driver σ Conn Cur Doc V) (lib : Lib Doc V) (m : Manager Conn) (ctx : Context Doc)
    (filePath collectionName dbName : String) (s : σ) : (Context Doc × Option GoError) × σ :=
  match m.getDatabase lib dbName with
  | .error err => ((ctx, some err), s)
  | .ok db =>
    match lib.readFile filePath with
    | .error err => ((ctx, some err), s)
    | .ok data =>
      match bytesToDocs lib data with
      | .error err => ((ctx, some err), s)
      | .ok docs =>
        match db.store drv lib collectionName docs s with
        | (err, s1) => ((ctx, err), s1)

/-- The method `Manager.searchInCollectionOfDatabase`. -/
def Manager.searchInCollectionOfDatabase (drv : Driver σ Conn Cur Doc V) (lib : Lib Doc V)
    (m : Manager Conn) (ctx : Context Doc) (collectionName dbName : String)
    (data : Option DocString) (s : σ) : (Context Doc × Option GoError) × σ :=
  match m.getDatabase lib dbName with
  | .error err => ((ctx, some err), s)
  | .ok db =>
    match stringToBSOND lib data with
    | .error err => ((ctx, some (errorfW "failed to parse filter" err)), s)
    | .ok filter =>
      match db.find drv lib collectionName filter sortedById s with
      | (.error err, s1) => ((ctx, some err), s1)
      | (.ok result, s1) => ((contextWithDocs ctx result, none), s1)

/-- The method `Manager.noDocumentsAreAvailableInCollectionOfDatabase`. -/
def Manager.noDocumentsAreAvailableInCollectionOfDatabase (drv : Driver σ Conn Cur Doc V)
    (lib : Lib Doc V) (m : Manager Conn) (ctx : Context Doc) (collectionName dbName : String)
    (s : σ) : (Context Doc × Option GoError) × σ :=
  match m.getDatabase lib dbName with
  | .error err => ((ctx, some err), s)
  | .ok db =>
    match db.count drv lib collectionName [] s with
    | (.error err, s1) => ((ctx, some err), s1)
    | (.ok count, s1) =>
      if count > 0 then
        ((ctx, some (.new ("collection " ++ quote lib.isPrint collectionName ++ " has "
          ++ fmtInt count ++ " document(s), expected none"))), s1)
      else ((ctx, none), s1)

/-- The method `Manager.haveNumberOfDocumentsAvailableInCollectionOfDatabase`. -/
def Manager.haveNumberOfDocumentsAvailableInCollectionOfDatabase
    (drv : Driver σ Conn Cur Doc V) (lib : Lib Doc V) (m : Manager Conn) (ctx : Context Doc)
    (expected : Int) (collectionName dbName : String) (s : σ) :
    (Context Doc × Option GoError) × σ :=
  match m.getDatabase lib dbName with
  | .error err => ((ctx, some err), s)
  | .ok db =>
    match db.count drv lib collectionName [] s with
    | (.error err, s1) => ((ctx, some err), s1)
    | (.ok actual, s1) =>
      if actual ≠ expected then
        ((ctx, some (.new ("collection " ++ quote lib.isPrint collectionName ++ " has "
          ++ fmtInt actual ++ " document(s), expected " ++ fmtInt expected))), s1)
      else ((ctx, none), s1)

/-- The method `Manager.haveOnlyTheseDocumentsAvailableInCollectionOfDatabase`. -/
def Manager.haveOnlyTheseDocumentsAvailableInCollectionOfDatabase
    (drv : Driver σ Conn Cur Doc V) (lib : Lib Doc V) (m : Manager Conn) (ctx : Context Doc)
    (collectionName dbName : String) (data : Option DocString) (s : σ) :
    (Context Doc × Option GoError) × σ :=
  match m.getDatabase lib dbName with
  | .error err => ((ctx, some err), s)
  | .ok db =>
    match stringToDocs lib data with
    | .error err => ((ctx, some (errorfW "failed to parse expected documents" err)), s)
    | .ok expectedDocs =>
      match db.find drv lib collectionName [] sortedById s with
      | (.error err, s1) => ((ctx, some err), s1)
      | (.ok actualDocs, s1) =>
        match docsToExtJSON lib expectedDocs with
        | .error err =>
          ((ctx, some (errorfW "failed to convert expected documents to JSON" err)), s1)
        | .ok expected =>
          match docsToExtJSON lib actualDocs with
          | .error err =>
            ((ctx, some (errorfW "failed to convert actual documents to JSON" err)), s1)
          | .ok actual => ((ctx, lib.failNotEqual expected actual), s1)

/-- The method `Manager.haveOnlyTheseDocumentsFromFileAvailableInCollectionOfDatabase`. -/
def Manager.haveOnlyTheseDocumentsFromFileAvailableInCollectionOfDatabase
    (drv : Driver σ Conn Cur Doc V) (lib : Lib Doc V) (m : Manager Conn) (ctx : Context Doc)
    (filePath collectionName dbName : String) (s : σ) : (Context Doc × Option GoError) × σ :=
  match lib.readFile filePath with
  | .error err => ((ctx, some err), s)
  | .ok expected =>
    m.haveOnlyTheseDocumentsAvailableInCollectionOfDatabase drv lib ctx collectionName dbName
      (some { content := expected }) s

/-- The method `Manager.haveNumberOfDocumentsInSearchResult`. -/
def Manager.haveNumberOfDocumentsInSearchResult (_m : Manager Conn) (ctx : Context Doc)
    (expected : Int) : Context Doc × Option GoError :=
  match docsFromContext ctx with
  | none => (ctx, some noSearchResult)
  | some docs =>
    if (docs.length : Int) ≠ expected then
      (ctx, some (.new ("there are " ++ fmtInt docs.length
        ++ " documents in the search result, expected " ++ fmtInt expected)))
    else (ctx, none)

/-- The method `Manager.haveDocumentsInSearchResult`. -/
def Manager.haveDocumentsInSearchResult (lib : Lib Doc V) (_m : Manager Conn)
    (ctx : Context Doc) (data : Option DocString) : Context Doc × Option GoError :=
  match docsFromContext ctx with
  | none => (ctx, some noSearchResult)
  | some actualDocs =>
    match stringToDocs lib data with
    | .error err => (ctx, some (errorfW "failed to parse expected documents" err))
    | .ok expectedDocs =>
      match docsToExtJSON lib expectedDocs with
      | .error err => (ctx, some (errorfW "failed to convert expected documents to JSON" err))
      | .ok expected =>
        match docsToExtJSON lib (some actualDocs) with
        | .error err => (ctx, some (errorfW "failed to convert actual documents to JSON" err))
        | .ok actual => (ctx, lib.failNotEqual expected actual)

end ManagerOps

/-! ## A concrete driver and library

A small in-memory driver and a small codec for documents whose fields hold
strings. They instantiate `Driver` and `Lib`, so that the functions above can be
evaluated on concrete inputs. -/

/-- Documents with string-valued fields. -/
abbrev FlatDoc := List (String × String)

/-- The state of the in-memory driver: the documents of each collection. -/
abbrev MemState := List (String × List FlatDoc)

/-- The documents of a collection in the in-memory driver. -/
def memCollection (s : MemState) (collection : String) : List FlatDoc :=
  (s.lookup collection).getD []

/-- The in-memory driver: one database, cursors that hold their documents,
filters that match everything, and an insert that rejects the empty list the
way the mongo driver does. -/
def memDriver : Driver MemState Unit (List FlatDoc) FlatDoc String where
  find := fun _ collection _ _ s => (.ok (memCollection s collection), s)
  cursorAll := fun cursor s => (.ok (if cursor.isEmpty then none else some cursor), s)
  cursorClose := fun _ s => s
  deleteMany := fun _ collection _ s => (none, (collection, []) :: s)
  insertMany := fun _ collection docs s =>
    if docs.isEmpty then
      (some (.new "must provide at least one element in input slice"), s)
    else (none, (collection, memCollection s collection ++ docs) :: s)
  countDocuments := fun _ collection _ s => (.ok (memCollection s collection).length, s)

/-- The driver state of the examples: a collection `customer` of two documents. -/
def twoCustomers : MemState :=
  [("customer", [[("_id", "1"), ("name", "John Doe")], [("_id", "2"), ("name", "Jane Doe")]])]

/-- A manager with one database, registered under the default name. -/
def memManager : Manager Unit :=
  { databases := [(defaultDatabase, { conn := (), cleanUps := [] })] }

/-- A string between double quotes, its quotes and backslashes backslashed. -/
def flatQuote (s : String) : List Char :=
  '"' :: (s.toList.flatMap (fun c => if c = '"' ∨ c = '\\' then ['\\', c] else [c]) ++ ['"'])

/-- The text of a flat document, laid out as `bsoncore.Document.String` lays a
document out: a colon and a blank after each key, a comma between fields. -/
def flatDocString (d : FlatDoc) : List Char :=
  '{' :: (joinWith [','] (d.map fun kv => flatQuote kv.1 ++ [':', ' '] ++ flatQuote kv.2)
    ++ ['}'])

/-- The compaction of `encoding/json` with HTML escaping, without its validity
check: the angle brackets, the ampersand and the two line separators become
`\u` escapes, and white space outside strings is dropped. The flags tell
whether the scan is inside a string and right behind a backslash. -/
def flatCompactAux : Bool → Bool → List Char → List Char
  | _, _, [] => []
  | inStr, esc, c :: cs =>
    (if c = '<' then "\\u003c".toList
      else if c = '>' then "\\u003e".toList
      else if c = '&' then "\\u0026".toList
      else if c.toNat = 0x2028 then "\\u2028".toList
      else if c.toNat = 0x2029 then "\\u2029".toList
      else if !inStr && (c = ' ' || c = '\n' || c = '\t' || c = '\r') then []
      else [c])
    ++ flatCompactAux
        (if esc then inStr else if inStr then c != '"' else c == '"')
        (if esc then false else inStr && c == '\\') cs

/-- The tokens of the JSON texts the flat codec reads. -/
inductive Tok where
  | lbrack | rbrack | lbrace | rbrace | comma | colon
  | str (s : String)
  deriving DecidableEq, Repr

/-- The modes of the lexer: outside a string, inside one, behind a backslash,
and inside a `\u` escape (with the value and number of the digits read). -/
inductive LexMode where
  | out
  | str (acc : List Char)
  | esc (acc : List Char)
  | hex (acc : List Char) (val count : Nat)

/-- The value of a hexadecimal digit. -/
def hexVal (c : Char) : Option Nat :=
  if '0' ≤ c ∧ c ≤ '9' then some (c.toNat - '0'.toNat)
  else if 'a' ≤ c ∧ c ≤ 'f' then some (c.toNat - 'a'.toNat + 10)
  else if 'A' ≤ c ∧ c ≤ 'F' then some (c.toNat - 'A'.toNat + 10)
  else none

/-- The lexer of the flat codec. -/
def lexAux : LexMode → List Char → Option (List Tok)
  | .out, [] => some []
  | _, [] => none
  | .out, c :: cs =>
    if c = '"' then lexAux (.str []) cs
    else if c = '[' then (lexAux .out cs).map (Tok.lbrack :: ·)
    else if c = ']' then (lexAux .out cs).map (Tok.rbrack :: ·)
    else if c = '{' then (lexAux .out cs).map (Tok.lbrace :: ·)
    else if c = '}' then (lexAux .out cs).map (Tok.rbrace :: ·)
    else if c = ',' then (lexAux .out cs).map (Tok.comma :: ·)
    else if c = ':' then (lexAux .out cs).map (Tok.colon :: ·)
    else if c = ' ' ∨ c = '\n' ∨ c = '\t' ∨ c = '\r' then lexAux .out cs
    else none
  | .str acc, c :: cs =>
    if c = '"' then (lexAux .out cs).map (Tok.str (String.mk acc.reverse) :: ·)
    else if c = '\\' then lexAux (.esc acc) cs
    else lexAux (.str (c :: acc)) cs
  | .esc acc, c :: cs =>
    if c = 'u' then lexAux (.hex acc 0 0) cs
    else if c = '"' ∨ c = '\\' ∨ c = '/' then lexAux (.str (c :: acc)) cs
    else if c = 'n' then lexAux (.str ('\n' :: acc)) cs
    else if c = 't' then lexAux (.str ('\t' :: acc)) cs
    else if c = 'r' then lexAux (.str ('\r' :: acc)) cs
    else none
  | .hex acc val count, c :: cs =>
    match hexVal c with
    | none => none
    | some v =>
      if count = 3 then lexAux (.str (Char.ofNat (val * 16 + v) :: acc)) cs
      else lexAux (.hex acc (val * 16 + v) (count + 1)) cs

/-- The states of the parser of an array of flat documents: what has been read
(documents and fields, latest first) and what may come next. -/
inductive ParseState where
  | start
  | arrayOpen
  | objectOpen (docs : List FlatDoc)
  | afterKey (docs : List FlatDoc) (fields : FlatDoc) (key : String)
  | afterColon (docs : List FlatDoc) (fields : FlatDoc) (key : String)
  | afterValue (docs : List FlatDoc) (fields : FlatDoc)
  | afterFieldComma (docs : List FlatDoc) (fields : FlatDoc)
  | afterObject (docs : List FlatDoc)
  | afterComma (docs : List FlatDoc)
  | done (docs : List FlatDoc)

/-- The parser of an array of flat documents, over the tokens. -/
def parseAux : ParseState → List Tok → Option (List FlatDoc)
  | .done docs, [] => some docs.reverse
  | _, [] => none
  | .start, .lbrack :: ts => parseAux .arrayOpen ts
  | .arrayOpen, .rbrack :: ts => parseAux (.done []) ts
  | .arrayOpen, .lbrace :: ts => parseAux (.objectOpen []) ts
  | .objectOpen docs, .rbrace :: ts => parseAux (.afterObject ([] :: docs)) ts
  | .objectOpen docs, .str k :: ts => parseAux (.afterKey docs [] k) ts
  | .afterKey docs fields k, .colon :: ts => parseAux (.afterColon docs fields k) ts
  | .afterColon docs fields k, .str v :: ts => parseAux (.afterValue docs ((k, v) :: fields)) ts
  | .afterValue docs fields, .comma :: ts => parseAux (.afterFieldComma docs fields) ts
  | .afterValue docs fields, .rbrace :: ts => parseAux (.afterObject (fields.reverse :: docs)) ts
  | .afterFieldComma docs fields, .str k :: ts => parseAux (.afterKey docs fields k) ts
  | .afterObject docs, .comma :: ts => parseAux (.afterComma docs) ts
  | .afterObject docs, .rbrack :: ts => parseAux (.done docs) ts
  | .afterComma docs, .lbrace :: ts => parseAux (.objectOpen docs) ts
  | _, _ :: _ => none

/-- The flat codec's reading of an array of documents. -/
def flatParse (data : List Char) : Option (List FlatDoc) :=
  (lexAux .out data).bind (parseAux .start)

/-- The flat codec's comparison of the fields of an expected and an actual
document: same keys in the same order, and equal values except where the
expected value is the comparer's marker. -/
def flatFieldsMatch : FlatDoc → FlatDoc → Bool
  | [], [] => true
  | (k, v) :: e, (k', v') :: a =>
    (k == k') && (v == "<ignore-diff>" || v == v') && flatFieldsMatch e a
  | _, _ => false

/-- The flat codec's comparison of two lists of documents. -/
def flatDocsMatch : List FlatDoc → List FlatDoc → Bool
  | [], [] => true
  | e :: es, a :: as => flatFieldsMatch e a && flatDocsMatch es as
  | _, _ => false

/-- The library over flat documents. -/
def flatLib : Lib FlatDoc String where
  isPrint := fun _ => true
  unmarshalDocs := fun data =>
    match flatParse data with
    | none => .error (.new "invalid JSON input")
    | some docs => .ok (some docs)
  unmarshalD := fun data =>
    match flatParse ('[' :: (data ++ [']'])) with
    | some [d] => .ok d
    | _ => .error (.new "invalid JSON input")
  docString := flatDocString
  compact := fun raw => .ok (flatCompactAux false false raw)
  failNotEqual := fun expected actual =>
    match flatParse expected, flatParse actual with
    | some e, some a => if flatDocsMatch e a then none else some (.new "not equal")
    | _, _ => some (.new "failed to unmarshal")
  readFile := fun filePath => .error (.new ("open " ++ filePath ++ ": no such file or directory"))

/-! ## The shape of a rendered document around its identifier -/

/-- A rendered document cut around the value of one field: the text up to the
colon behind the field's key, the text of the value, the character behind the
value, and the rest. -/
structure IdHole where
  pre : List Char
  value : List Char
  sep : Char
  post : List Char

/-- The encoded text of an expected document whose field holds the string
`<ignored-diff>`: the encoder writes the angle brackets as `\u` escapes. -/
def IdHole.expectedText (h : IdHole) : List Char :=
  h.pre ++ ':' :: '"' :: (escapedMarker ++ '"' :: h.sep :: h.post)

/-- The encoded text of an actual document, with its own value of the field. -/
def IdHole.actualText (h : IdHole) : List Char :=
  h.pre ++ ':' :: (h.value ++ h.sep :: h.post)

/-- The expected document as it reaches the comparer: the marker `<ignore-diff>`
stands in place of the value. -/
def IdHole.expectedOut (h : IdHole) : List Char :=
  normalizeMarker h.pre ++ ':' :: '"' :: (literalMarker ++ '"' :: h.sep :: normalizeMarker h.post)

/-- The actual document as it reaches the comparer. -/
def IdHole.actualOut (h : IdHole) : List Char :=
  normalizeMarker h.pre ++ ':' :: (normalizeMarker h.value ++ h.sep :: normalizeMarker h.post)

/-- The expected payload of the examples: both identifiers are `<ignored-diff>`. -/
def ignoredIds : DocString :=
  ⟨("[\x7b\"_id\": \"<ignored-diff>\", \"name\": \"John Doe\"\x7d,"
    ++ " \x7b\"_id\": \"<ignored-diff>\", \"name\": \"Jane Doe\"\x7d]").toList⟩

/-- The holes of the examples: the identifiers `1` and `2` of the two customers. -/
def customerHoles : List IdHole :=
  [⟨"\x7b\"_id\"".toList, "\"1\"".toList, ',', "\"name\":\"John Doe\"\x7d".toList⟩,
   ⟨"\x7b\"_id\"".toList, "\"2\"".toList, ',', "\"name\":\"Jane Doe\"\x7d".toList⟩]

/-! ## Registration and steps (`manager.go`) -/

/-- The assignment `m[name] = value` on a map kept as a list of entries: the new
entry comes first and the older entries of the name are dropped. -/
def mapSet {β : Type} (entries : List (String × β)) (name : String) (value : β) :
    List (String × β) :=
  (name, value) :: entries.filter (fun e => e.1 != name)

/-- The entries a `range` over the map visits: the first entry of each name,
here in the order of the list (the order of a Go `range` over a map is not
specified; every order is the order of some list). -/
def mapEntries {β : Type} : List (String × β) → List (String × β)
  | [] => []
  | e :: rest => e :: (mapEntries rest).filter (fun x => x.1 != e.1)

section Registration

variable {σ Conn Cur Doc V : Type}

/-- The option `WithDefaultDatabase`. -/
def WithDefaultDatabase (db : Conn) (opts : List (Database Conn → Database Conn)) :
    Manager Conn → Manager Conn :=
  fun m => { databases := mapSet m.databases defaultDatabase (newDatabase db opts) }

/-- The option `WithDatabase`. -/
def WithDatabase (name : String) (db : Conn) (opts : List (Database Conn → Database Conn)) :
    Manager Conn → Manager Conn :=
  fun m => { databases := mapSet m.databases name (newDatabase db opts) }

/-- The function `NewManager`: the options are applied in order to a manager
with an empty map. -/
def NewManager (opts : List (Manager Conn → Manager Conn)) : Manager Conn :=
  opts.foldl (fun m opt => opt m) { databases := [] }

/-- The loop of the after-scenario hook over the databases still to clean up. -/
def afterLoop (drv : Driver σ Conn Cur Doc V) (lib : Lib Doc V) :
    List (String × Database Conn) → σ → Option GoError × σ
  | [], s => (none, s)
  | (_, db) :: rest, s =>
    match db.cleanUp drv lib s with
    | (some err, s1) => (some err, s1)
    | (none, s1) => afterLoop drv lib rest s1

/-- The hook `RegisterContext` passes to `sc.After`; the scenario and its error
are not used. -/
def Manager.afterScenario (drv : Driver σ Conn Cur Doc V) (lib : Lib Doc V) (m : Manager Conn)
    (ctx : Context Doc) (_scenarioErr : Option GoError) (s : σ) :
    (Context Doc × Option GoError) × σ :=
  match afterLoop drv lib (mapEntries m.databases) s with
  | (err, s1) => ((ctx, err), s1)

/-- The step `no (?:docs|documents) in collection "([^"]*)"$`. -/
def Manager.stepNoDocuments (drv : Driver σ Conn Cur Doc V) (lib : Lib Doc V) (m : Manager Conn)
    (ctx : Context Doc) (collectionName : String) (s : σ) :
    (Context Doc × Option GoError) × σ :=
  m.noDocumentsInCollectionOfDatabase drv lib ctx collectionName defaultDatabase s

/-- The step `these (?:docs|documents) are(?: stored)? in collection "([^"]*)"[:]?$`. -/
def Manager.stepTheseDocumentsAreStored (drv : Driver σ Conn Cur Doc V) (lib : Lib Doc V)
    (m : Manager Conn) (ctx : Context Doc) (collectionName : String) (data : Option DocString)
    (s : σ) : (Context Doc × Option GoError) × σ :=
  m.theseDocumentsAreStoredInCollectionOfDatabase drv lib ctx collectionName defaultDatabase
    data s

/-- The step
`(?:docs|documents) from(?: file)? "([^"]*)" are(?: stored)? in collection "([^"]*)"$`. -/
def Manager.stepDocumentsFromFileAreStored (drv : Driver σ Conn Cur Doc V) (lib : Lib Doc V)
    (m : Manager Conn) (ctx : Context Doc) (filePath collectionName : String) (s : σ) :
    (Context Doc × Option GoError) × σ :=
  m.theseDocumentsFromFileAreStoredInCollectionOfDatabase drv lib ctx filePath collectionName
    defaultDatabase s

/-- The step `(?:search|find) in collection "([^"]*)"$`. -/
def Manager.stepSearch (drv : Driver σ Conn Cur Doc V) (lib : Lib Doc V) (m : Manager Conn)
    (ctx : Context Doc) (collectionName : String) (s : σ) :
    (Context Doc × Option GoError) × σ :=
  m.searchInCollectionOfDatabase drv lib ctx collectionName defaultDatabase none s

/-- The step `(?:search|find) in collection "([^"]*)" with query[:]?$`. -/
def Manager.stepSearchWithQuery (drv : Driver σ Conn Cur Doc V) (lib : Lib Doc V)
    (m : Manager Conn) (ctx : Context Doc) (collectionName : String) (data : Option DocString)
    (s : σ) : (Context Doc × Option GoError) × σ :=
  m.searchInCollectionOfDatabase drv lib ctx collectionName defaultDatabase data s

/-- The step `(?:search|find) in collection "([^"]*)" of database "([^"]*)"$`. -/
def Manager.stepSearchOfDatabase (drv : Driver σ Conn Cur Doc V) (lib : Lib Doc V)
    (m : Manager Conn) (ctx : Context Doc) (collectionName databaseName : String) (s : σ) :
    (Context Doc × Option GoError) × σ :=
  m.searchInCollectionOfDatabase drv lib ctx collectionName databaseName none s

/-- The step `no (?:docs|documents) are(?: available)? in collection "([^"]*)"$`. -/
def Manager.stepNoDocumentsAreAvailable (drv : Driver σ Conn Cur Doc V) (lib : Lib Doc V)
    (m : Manager Conn) (ctx : Context Doc) (collectionName : String) (s : σ) :
    (Context Doc × Option GoError) × σ :=
  m.noDocumentsAreAvailableInCollectionOfDatabase drv lib ctx collectionName defaultDatabase s

/-- The step `there (?:is|are) ([0-9]+) (?:doc|docs|document|documents)(?: available)?
in collection "([^"]*)"$`. -/
def Manager.stepThereAreDocuments (drv : Driver σ Conn Cur Doc V) (lib : Lib Doc V)
    (m : Manager Conn) (ctx : Context Doc) (count : Int) (collectionName : String) (s : σ) :
    (Context Doc × Option GoError) × σ :=
  m.haveNumberOfDocumentsAvailableInCollectionOfDatabase drv lib ctx count collectionName
    defaultDatabase s

/-- The step `collection "([^"]*)" should have ([0-9]+)
(?:doc|docs|document|documents)(?: available)?$`. -/
def Manager.stepCollectionShouldHave (drv : Driver σ Conn Cur Doc V) (lib : Lib Doc V)
    (m : Manager Conn) (ctx : Context Doc) (collectionName : String) (count : Int) (s : σ) :
    (Context Doc × Option GoError) × σ :=
  m.haveNumberOfDocumentsAvailableInCollectionOfDatabase drv lib ctx count collectionName
    defaultDatabase s

/-- The step `there (?:is|are) only (?:this|these) (?:doc|docs|document|documents)
(?: available)? in collection "([^"]*)"[:]?$`. -/
def Manager.stepThereAreOnlyTheseDocuments (drv : Driver σ Conn Cur Doc V) (lib : Lib Doc V)
    (m : Manager Conn) (ctx : Context Doc) (collectionName : String) (data : Option DocString)
    (s : σ) : (Context Doc × Option GoError) × σ :=
  m.haveOnlyTheseDocumentsAvailableInCollectionOfDatabase drv lib ctx collectionName
    defaultDatabase data s

/-- The step `collection "([^"]*)" should have only (?:this|these)
(?:doc|docs|document|documents)(?: available)?[:]?$`. -/
def Manager.stepCollectionShouldHaveOnlyThese (drv : Driver σ Conn Cur Doc V) (lib : Lib Doc V)
    (m : Manager Conn) (ctx : Context Doc) (collectionName : String) (data : Option DocString)
    (s : σ) : (Context Doc × Option GoError) × σ :=
  m.haveOnlyTheseDocumentsAvailableInCollectionOfDatabase drv lib ctx collectionName
    defaultDatabase data s

/-- The step `there (?:is|are) only (?:this|these) (?:doc|docs|document|documents)
from(?: file)? "([^"]*)"(?: available)? in collection "([^"]*)"[:]?$`. -/
def Manager.stepThereAreOnlyTheseDocumentsFromFile (drv : Driver σ Conn Cur Doc V)
    (lib : Lib Doc V) (m : Manager Conn) (ctx : Context Doc) (filePath collectionName : String)
    (s : σ) : (Context Doc × Option GoError) × σ :=
  m.haveOnlyTheseDocumentsFromFileAvailableInCollectionOfDatabase drv lib ctx filePath
    collectionName defaultDatabase s

/-- The step `collection "([^"]*)" of database "([^"]*)" should have ([0-9]+)
(?:doc|docs|document|documents)(?: available)?$`. -/
def Manager.stepCollectionOfDatabaseShouldHave (drv : Driver σ Conn Cur Doc V)
    (lib : Lib Doc V) (m : Manager Conn) (ctx : Context Doc)
    (collectionName databaseName : String) (count : Int) (s : σ) :
    (Context Doc × Option GoError) × σ :=
  m.haveNumberOfDocumentsAvailableInCollectionOfDatabase drv lib ctx count collectionName
    databaseName s

end Registration

/-! ## A recording driver and a library with a file -/

/-- The calls a driver receives. -/
inductive Call where
  | find (collection : String)
  | readAll
  | close
  | delete (collection : String)
  | insert (collection : String) (docs : List FlatDoc)
  | count (collection : String)
  deriving DecidableEq, Repr

/-- The recording driver: its state is the list of the calls it received, in
order. Calls on a collection that `bad` marks fail with `command failed`, an
insert of no documents is rejected the way the mongo driver rejects it, and
every other call succeeds (with no documents). -/
def recDriver (bad : String → Bool) : Driver (List Call) Unit Unit FlatDoc String where
  find := fun _ collection _ _ log =>
    (if bad collection then .error (.new "command failed") else .ok (),
      log ++ [.find collection])
  cursorAll := fun _ log => (.ok none, log ++ [.readAll])
  cursorClose := fun _ log => log ++ [.close]
  deleteMany := fun _ collection _ log =>
    (if bad collection then some (.new "command failed") else none,
      log ++ [.delete collection])
  insertMany := fun _ collection docs log =>
    (if docs.isEmpty then some (.new "must provide at least one element in input slice")
      else if bad collection then some (.new "command failed") else none,
      log ++ [.insert collection docs])
  countDocuments := fun _ collection _ log =>
    (if bad collection then .error (.new "command failed") else .ok 0,
      log ++ [.count collection])

/-- The flat library with one readable file. -/
def flatLibWithFile (name : String) (content : List Char) : Lib FlatDoc String :=
  { flatLib with
    readFile := fun filePath =>
      if filePath = name then .ok content else flatLib.readFile filePath }

/-- The payload of the two customers. -/
def customersPayload : List Char :=
  ("[\x7b\"_id\": \"1\", \"name\": \"John Doe\"\x7d,"
    ++ " \x7b\"_id\": \"2\", \"name\": \"Jane Doe\"\x7d]").toList

/-- A context on which `contextWithDocs` was never applied: no value is stored
under the package's key. -/
def Context.neverSearched {Doc : Type} : Context Doc → Bool
  | .background => true
  | .withValue parent key _ => key != .queryer && parent.neverSearched

/-- A run of steps over a list in which every step succeeds: the run leads from
the first driver state to the last. -/
inductive AllOk {α σ : Type} (step : α → σ → Option GoError × σ) : List α → σ → σ → Prop where
  | nil (s : σ) : AllOk step [] s s
  | cons (a : α) (rest : List α) (s s1 s2 : σ) :
      step a s = (none, s1) → AllOk step rest s1 s2 → AllOk step (a :: rest) s s2

/-- A database whose clean-up collections are `a`, then `b` and `c`, registered
with two options. -/
def abcDatabase : Database Unit :=
  newDatabase () [CleanUpAfterScenario ["a"], CleanUpAfterScenario ["b", "c"]]

/-! ## The flat codec's encoding, character by character -/

/-- The text the flat codec's encoding has for one character of a string: the
quote and the backslash behind a backslash, the angle brackets, the ampersand
and the two line separators as `\u` escapes, every other character itself. -/
def encChar (c : Char) : List Char :=
  if c = '"' ∨ c = '\\' then ['\\', c]
  else if c = '<' then "\\u003c".toList
  else if c = '>' then "\\u003e".toList
  else if c = '&' then "\\u0026".toList
  else if c.toNat = 0x2028 then "\\u2028".toList
  else if c.toNat = 0x2029 then "\\u2029".toList
  else [c]

/-- The encoding of a string: its characters between double quotes. -/
def encQuoted (s : String) : List Char :=
  '"' :: (s.toList.flatMap encChar ++ ['"'])

/-- The encoding of a field: key, colon, value. -/
def encField (kv : String × String) : List Char :=
  encQuoted kv.1 ++ ':' :: encQuoted kv.2

/-- The encoding of the fields of a document, commas between them. -/
def encFields : FlatDoc → List Char
  | [] => []
  | kv :: rest => encField kv ++ rest.flatMap (fun x => ',' :: encField x)

/-- The encoding of a flat document. -/
def encDoc (d : FlatDoc) : List Char :=
  '{' :: (encFields d ++ ['}'])

/-- The tokens of a field. -/
def fieldToks (kv : String × String) : List Tok :=
  [Tok.str kv.1, Tok.colon, Tok.str kv.2]

/-- The tokens of the fields of a document. -/
def fieldsToks : FlatDoc → List Tok
  | [] => []
  | kv :: rest => fieldToks kv ++ rest.flatMap (fun x => Tok.comma :: fieldToks x)

/-- The tokens of a flat document. -/
def docToks (d : FlatDoc) : List Tok :=
  Tok.lbrace :: (fieldsToks d ++ [Tok.rbrace])

/-- The tokens of the documents of an array. -/
def docsToks : List FlatDoc → List Tok
  | [] => []
  | d :: rest => docToks d ++ rest.flatMap (fun x => Tok.comma :: docToks x)

/-! ## The manager's look-up and its count assertions -/

section ManagerFacts

variable {σ Conn Cur Doc V : Type}

/-- C1. `getDatabase` fails exactly when the name is not a key of the manager's
databases; the error then is a fresh error with the message
`mongo database "<n>" is not registered to the manager` (the name quoted as `%q`
does), and otherwise the database registered under the name is returned. -/
theorem getDatabase_registered_iff (lib : Lib Doc V) (m : Manager Conn) (n : String) :
    ((∃ err, m.getDatabase lib n = .error err) ↔ n ∉ m.databases.map Prod.fst) ∧
    (∀ err, m.getDatabase lib n = .error err →
      err = .new ("mongo database " ++ quote lib.isPrint n
        ++ " is not registered to the manager") ∧
      err.message = "mongo database " ++ quote lib.isPrint n
        ++ " is not registered to the manager") ∧
    (∀ db, m.getDatabase lib n = .ok db ↔ m.databases.lookup n = some db) := by
  have hkey : m.databases.lookup n = none ↔ n ∉ m.databases.map Prod.fst := by
    rw [List.lookup_eq_none_iff]
    constructor
    · intro hall hmem
      obtain ⟨p, hin, hpn⟩ := List.mem_map.1 hmem
      have hne := hall p hin
      rw [bne_iff_ne] at hne
      exact hne hpn.symm
    · intro hk p hp
      rw [bne_iff_ne]
      exact fun hnp => hk (List.mem_map.2 ⟨p, hp, hnp.symm⟩)
  unfold Manager.getDatabase
  cases h : m.databases.lookup n with
  | none =>
    refine ⟨⟨fun _ => hkey.1 h, fun _ => ⟨_, rfl⟩⟩, ?_, ?_⟩
    · intro err herr
      injection herr with herr
      subst herr
      exact ⟨rfl, rfl⟩
    · intro db
      constructor
      · intro hEq
        cases hEq
      · intro hEq
        cases hEq
  | some db =>
    refine ⟨⟨?_, ?_⟩, ?_, ?_⟩
    · rintro ⟨err, herr⟩
      cases herr
    · intro hn
      rw [hkey.2 hn] at h
      cases h
    · intro err herr
      cases herr
    · intro db2
      constructor
      · intro hEq
        injection hEq with hEq
        exact congrArg some hEq
      · intro hEq
        injection hEq with hEq
        rw [hEq]

/-- C2. On a context that carries no search result, the assertion on the number
of documents (for every expected count) and the assertion on the documents (for
every library and every payload, nil and unparsable ones included) return the
given context and the error whose message is
`no documents are available in the search result, did you forget to search?`:
the payload is not looked at. -/
theorem searchResult_missing (lib : Lib Doc V) (m : Manager Conn) (ctx : Context Doc)
    (expected : Int) (data : Option DocString) (h : docsFromContext ctx = none) :
    m.haveNumberOfDocumentsInSearchResult ctx expected = (ctx, some noSearchResult) ∧
    m.haveDocumentsInSearchResult lib ctx data = (ctx, some noSearchResult) ∧
    noSearchResult.message
      = "no documents are available in the search result, did you forget to search?" := by
  refine ⟨?_, ?_, rfl⟩
  · unfold Manager.haveNumberOfDocumentsInSearchResult
    rw [h]
  · unfold Manager.haveDocumentsInSearchResult
    rw [h]

/-- C3. When the database is registered and the count of the collection under
the empty filter succeeds with `K`, the assertion that no documents are
available fails exactly when `K > 0`, with the message
`collection "<c>" has <K> document(s), expected none`, and returns a nil error
otherwise (for `K = 0` in particular). -/
theorem noDocumentsAreAvailable_count (drv : Driver σ Conn Cur Doc V) (lib : Lib Doc V)
    (m : Manager Conn) (ctx : Context Doc) (c dbName : String) (s s1 : σ) (db : Database Conn)
    (K : Int) (hdb : m.getDatabase lib dbName = .ok db)
    (hcount : db.count drv lib c [] s = (.ok K, s1)) :
    ((m.noDocumentsAreAvailableInCollectionOfDatabase drv lib ctx c dbName s).1.2 ≠ none
      ↔ K > 0) ∧
    (K > 0 → m.noDocumentsAreAvailableInCollectionOfDatabase drv lib ctx c dbName s
      = ((ctx, some (.new ("collection " ++ quote lib.isPrint c ++ " has " ++ fmtInt K
          ++ " document(s), expected none"))), s1)) ∧
    (K = 0 → m.noDocumentsAreAvailableInCollectionOfDatabase drv lib ctx c dbName s
      = ((ctx, none), s1)) := by
  unfold Manager.noDocumentsAreAvailableInCollectionOfDatabase
  rw [hdb]
  simp only [hcount]
  by_cases hK : K > 0
  · have hne : K ≠ 0 := by omega
    simp [hK, hne]
  · simp [hK]

/-- C4. When the database is registered and the count of the collection under
the empty filter succeeds with `A`, the assertion on the number of available
documents returns a nil error exactly when `A = N`, and fails otherwise with
the message `collection "<c>" has <A> document(s), expected <N>`. -/
theorem haveNumberOfDocumentsAvailable_count (drv : Driver σ Conn Cur Doc V) (lib : Lib Doc V)
    (m : Manager Conn) (ctx : Context Doc) (c dbName : String) (s s1 : σ) (db : Database Conn)
    (A N : Int) (hdb : m.getDatabase lib dbName = .ok db)
    (hcount : db.count drv lib c [] s = (.ok A, s1)) :
    ((m.haveNumberOfDocumentsAvailableInCollectionOfDatabase drv lib ctx N c dbName s).1.2 = none
      ↔ A = N) ∧
    (A = N → m.haveNumberOfDocumentsAvailableInCollectionOfDatabase drv lib ctx N c dbName s
      = ((ctx, none), s1)) ∧
    (A ≠ N → m.haveNumberOfDocumentsAvailableInCollectionOfDatabase drv lib ctx N c dbName s
      = ((ctx, some (.new ("collection " ++ quote lib.isPrint c ++ " has " ++ fmtInt A
          ++ " document(s), expected " ++ fmtInt N))), s1)) := by
  unfold Manager.haveNumberOfDocumentsAvailableInCollectionOfDatabase
  rw [hdb]
  simp only [hcount]
  by_cases hA : A = N
  · simp [hA]
  · simp [hA]

/-- C5. On a context that carries a non-nil search result of `n` documents (the
empty list included), the assertion on the number of documents returns a nil
error exactly when `n = N`, and fails otherwise with the message
`there are <n> documents in the search result, expected <N>`. The method takes
no driver and no driver state: it cannot query a database. -/
theorem haveNumberOfDocumentsInSearchResult_count (m : Manager Conn) (ctx : Context Doc)
    (docs : List Doc) (N : Int) (h : docsFromContext ctx = some docs) :
    ((m.haveNumberOfDocumentsInSearchResult ctx N).2 = none ↔ (docs.length : Int) = N) ∧
    ((docs.length : Int) = N → m.haveNumberOfDocumentsInSearchResult ctx N = (ctx, none)) ∧
    ((docs.length : Int) ≠ N → m.haveNumberOfDocumentsInSearchResult ctx N
      = (ctx, some (.new ("there are " ++ fmtInt docs.length
          ++ " documents in the search result, expected " ++ fmtInt N)))) := by
  unfold Manager.haveNumberOfDocumentsInSearchResult
  rw [h]
  by_cases hN : (docs.length : Int) = N
  · simp [hN]
  · simp [hN]

end ManagerFacts

/-- C2 at the background context, with an unparsable payload. -/
theorem searchResult_missing_witness :
    docsFromContext (Context.background : Context FlatDoc) = none ∧
    memManager.haveNumberOfDocumentsInSearchResult (Context.background : Context FlatDoc) 3
      = (.background, some noSearchResult) ∧
    memManager.haveDocumentsInSearchResult flatLib .background (some ⟨['[']⟩)
      = (.background, some noSearchResult) ∧
    noSearchResult.message
      = "no documents are available in the search result, did you forget to search?" :=
  ⟨rfl, searchResult_missing flatLib memManager .background 3 (some ⟨['[']⟩) rfl⟩

/-- C3 on a collection of two documents: the assertion fails with
`collection "customer" has 2 document(s), expected none`. -/
theorem noDocumentsAreAvailable_count_witness :
    memManager.noDocumentsAreAvailableInCollectionOfDatabase memDriver flatLib
        (Context.background : Context FlatDoc) "customer" "default" twoCustomers
      = ((.background,
          some (.new "collection \"customer\" has 2 document(s), expected none")),
        twoCustomers) :=
  (noDocumentsAreAvailable_count memDriver flatLib memManager .background "customer" "default"
    twoCustomers twoCustomers { conn := (), cleanUps := [] } 2 rfl rfl).2.1
    (by decide)

/-- C4 on a collection of two documents: two are expected and found. -/
theorem haveNumberOfDocumentsAvailable_count_witness :
    memManager.haveNumberOfDocumentsAvailableInCollectionOfDatabase memDriver flatLib
        (Context.background : Context FlatDoc) 2 "customer" "default" twoCustomers
      = ((.background, none), twoCustomers) :=
  (haveNumberOfDocumentsAvailable_count memDriver flatLib memManager .background "customer"
    "default" twoCustomers twoCustomers { conn := (), cleanUps := [] } 2 2 rfl rfl).2.1 rfl

/-- C5 on a search result of two documents where one is expected: the assertion
fails with `there are 2 documents in the search result, expected 1`. -/
theorem haveNumberOfDocumentsInSearchResult_count_witness :
    memManager.haveNumberOfDocumentsInSearchResult
        (contextWithDocs .background (some [[("name", "John")], [("name", "Jane")]])) 1
      = (contextWithDocs .background (some [[("name", "John")], [("name", "Jane")]]),
        some (.new "there are 2 documents in the search result, expected 1")) :=
  (haveNumberOfDocumentsInSearchResult_count memManager
    (contextWithDocs .background (some [[("name", "John")], [("name", "Jane")]]))
    [[("name", "John")], [("name", "Jane")]] 1 rfl).2.2 (by decide)

/-! ## Facts about `replaceAll` -/

section Replace

variable (old new : List Char)

theorem replaceFuel_nil (n : Nat) : replaceFuel old new n [] = [] := by
  cases n <;> rfl

/-- Fuel beyond the length of the text does not change the result. -/
theorem replaceFuel_fuel (hold : old ≠ []) :
    ∀ (n m : Nat) (s : List Char), s.length ≤ n → s.length ≤ m →
      replaceFuel old new n s = replaceFuel old new m s := by
  intro n
  induction n with
  | zero =>
    intro m s hn _
    have hs : s = [] := List.length_eq_zero.1 (Nat.le_zero.1 hn)
    subst hs
    rw [replaceFuel_nil, replaceFuel_nil]
  | succ n ih =>
    intro m s hn hm
    cases s with
    | nil => rw [replaceFuel_nil, replaceFuel_nil]
    | cons c t =>
      cases m with
      | zero => simp at hm
      | succ m =>
        have hpos : 0 < old.length := List.length_pos.2 hold
        have hdrop : ((c :: t).drop old.length).length ≤ t.length := by
          simp only [List.length_drop, List.length_cons]
          omega
        simp only [List.length_cons, Nat.add_le_add_iff_right] at hn hm
        simp only [replaceFuel]
        by_cases hp : old <+: c :: t
        · rw [if_pos hp, if_pos hp, ih m _ (le_trans hdrop hn) (le_trans hdrop hm)]
        · rw [if_neg hp, if_neg hp, ih m t hn hm]

theorem replaceAll_nil : replaceAll [] old new = [] := rfl

theorem replaceAll_cons_skip (c : Char) (s : List Char) (h : ¬ old <+: c :: s) :
    replaceAll (c :: s) old new = c :: replaceAll s old new := by
  simp only [replaceAll, List.length_cons, replaceFuel, if_neg h]

theorem replaceAll_cons_match (hold : old ≠ []) (c : Char) (s : List Char)
    (h : old <+: c :: s) :
    replaceAll (c :: s) old new = new ++ replaceAll ((c :: s).drop old.length) old new := by
  have hpos : 0 < old.length := List.length_pos.2 hold
  have hdrop : ((c :: s).drop old.length).length ≤ s.length := by
    simp only [List.length_drop, List.length_cons]
    omega
  simp only [replaceAll, List.length_cons, replaceFuel, if_pos h]
  rw [replaceFuel_fuel old new hold _ _ _ hdrop (le_refl _)]

/-- A text without an occurrence of `old` is left as it is. -/
theorem replaceAll_of_not_infix (s : List Char) (h : ¬ old <:+: s) :
    replaceAll s old new = s := by
  induction s with
  | nil => rfl
  | cons c t ih =>
    have hp : ¬ old <+: c :: t := fun hp => h hp.isInfix
    rw [replaceAll_cons_skip old new c t hp, ih (fun ht => h (List.infix_cons ht))]

/-- A prefix of `a ++ c :: b` that does not hold `c` is a prefix of `a`. -/
theorem prefix_of_prefix_append_sep {a b : List Char} {c : Char} (hc : c ∉ old)
    (h : old <+: a ++ c :: b) : old <+: a := by
  rcases List.prefix_or_prefix_of_prefix h (List.prefix_append a (c :: b)) with h1 | h1
  · exact h1
  · obtain ⟨r, hr⟩ := h1
    subst hr
    rw [List.prefix_append_right_inj] at h
    rcases List.prefix_cons_iff.1 h with hnil | ⟨t, ht, _⟩
    · subst hnil
      simp
    · subst ht
      exact absurd (by simp) hc

/-- An occurrence in `a ++ c :: b` that does not hold `c` lies in `a` or in `b`. -/
theorem infix_of_infix_append_sep {a b : List Char} {c : Char} (hc : c ∉ old)
    (h : old <:+: a ++ c :: b) : old <:+: a ∨ old <:+: b := by
  induction a with
  | nil =>
    rcases List.infix_cons_iff.1 h with hp | hi
    · exact Or.inl (prefix_of_prefix_append_sep old hc (a := []) hp).isInfix
    · exact Or.inr hi
  | cons x a ih =>
    rcases List.infix_cons_iff.1 h with hp | hi
    · exact Or.inl (prefix_of_prefix_append_sep old hc (a := x :: a) hp).isInfix
    · rcases ih hi with h1 | h1
      · exact Or.inl (List.infix_cons h1)
      · exact Or.inr h1

/-- The replacement works on both sides of a character that `old` does not
hold. -/
theorem replaceAll_append_sep (hold : old ≠ []) {c : Char} (hc : c ∉ old) (b : List Char) :
    ∀ (n : Nat) (a : List Char), a.length ≤ n →
      replaceAll (a ++ c :: b) old new = replaceAll a old new ++ c :: replaceAll b old new := by
  have hsep : ¬ old <+: c :: b := by
    intro hp
    have := prefix_of_prefix_append_sep old hc (a := []) hp
    exact hold (List.prefix_nil.1 this)
  intro n
  induction n with
  | zero =>
    intro a ha
    have hs : a = [] := List.length_eq_zero.1 (Nat.le_zero.1 ha)
    subst hs
    rw [List.nil_append, replaceAll_cons_skip old new c b hsep, replaceAll_nil,
      List.nil_append]
  | succ n ih =>
    intro a ha
    cases a with
    | nil =>
      rw [List.nil_append, replaceAll_cons_skip old new c b hsep, replaceAll_nil,
        List.nil_append]
    | cons x a =>
      simp only [List.length_cons, Nat.add_le_add_iff_right] at ha
      by_cases hp : old <+: (x :: a) ++ c :: b
      · have hpa : old <+: x :: a := prefix_of_prefix_append_sep old hc hp
        have hlen : old.length ≤ (x :: a).length := hpa.length_le
        have hpos : 0 < old.length := List.length_pos.2 hold
        have hdrop : ((x :: a).drop old.length).length ≤ n := by
          simp only [List.length_drop, List.length_cons]
          omega
        rw [List.cons_append] at hp ⊢
        rw [replaceAll_cons_match old new hold x _ hp,
          replaceAll_cons_match old new hold x _ hpa, ← List.cons_append,
          List.drop_append_of_le_length hlen, ih _ hdrop, List.append_assoc]
      · have hpa : ¬ old <+: x :: a := fun h => hp (h.trans (List.prefix_append _ _))
        rw [List.cons_append] at hp ⊢
        rw [replaceAll_cons_skip old new x _ hp,
          replaceAll_cons_skip old new x _ hpa, ih a ha, List.cons_append]

theorem joinWith_cons_cons (sep x y : List Char) (rest : List (List Char)) :
    joinWith sep (x :: y :: rest) = x ++ sep ++ joinWith sep (y :: rest) := rfl

theorem joinWith_push (sep : List Char) (c : Char) (x : List Char) (rest : List (List Char)) :
    joinWith sep ((c :: x) :: rest) = c :: joinWith sep (x :: rest) := by
  cases rest <;> rfl

theorem prefix_joinWith (sep x : List Char) (rest : List (List Char)) :
    x <+: joinWith sep (x :: rest) := by
  cases rest with
  | nil => exact List.prefix_refl x
  | cons y rest =>
    rw [joinWith_cons_cons, List.append_assoc]
    exact List.prefix_append _ _

/-- The replacement cuts the text into segments none of which holds `old`: the
text is the segments joined by `old`, the result the same segments joined by
`new`. Nothing but the occurrences of `old` between the segments is changed. -/
theorem replaceAll_segments (hold : old ≠ []) :
    ∀ (n : Nat) (s : List Char), s.length ≤ n →
      ∃ seg segs, s = joinWith old (seg :: segs) ∧
        replaceAll s old new = joinWith new (seg :: segs) ∧
        ∀ t ∈ seg :: segs, ¬ old <:+: t := by
  have hnil : ¬ old <:+: [] := fun h => hold (List.infix_nil.1 h)
  intro n
  induction n with
  | zero =>
    intro s hs
    have hs : s = [] := List.length_eq_zero.1 (Nat.le_zero.1 hs)
    subst hs
    exact ⟨[], [], rfl, rfl, by simpa using hnil⟩
  | succ n ih =>
    intro s hs
    cases s with
    | nil => exact ⟨[], [], rfl, rfl, by simpa using hnil⟩
    | cons c t =>
      simp only [List.length_cons, Nat.add_le_add_iff_right] at hs
      by_cases hp : old <+: c :: t
      · have hpos : 0 < old.length := List.length_pos.2 hold
        have hdrop : ((c :: t).drop old.length).length ≤ n := by
          simp only [List.length_drop, List.length_cons]
          omega
        obtain ⟨seg, segs, h1, h2, h3⟩ := ih _ hdrop
        refine ⟨[], seg :: segs, ?_, ?_, ?_⟩
        · rw [joinWith_cons_cons, List.nil_append, ← h1]
          exact (List.prefix_iff_eq_append.1 hp).symm
        · rw [replaceAll_cons_match old new hold c t hp, h2, joinWith_cons_cons,
            List.nil_append]
        · intro u hu
          rcases List.mem_cons.1 hu with hu | hu
          · subst hu
            exact hnil
          · exact h3 u hu
      · obtain ⟨seg, segs, h1, h2, h3⟩ := ih t hs
        refine ⟨c :: seg, segs, ?_, ?_, ?_⟩
        · rw [joinWith_push, ← h1]
        · rw [replaceAll_cons_skip old new c t hp, h2, joinWith_push]
        · intro u hu
          rcases List.mem_cons.1 hu with hu | hu
          · subst hu
            intro hi
            rcases List.infix_cons_iff.1 hi with hpre | hin
            · apply hp
              rw [h1]
              exact hpre.trans ((List.prefix_cons_inj c).2 (prefix_joinWith old seg segs))
            · exact h3 seg (List.mem_cons_self _ _) hin
          · exact h3 u (List.mem_cons_of_mem _ hu)

/-- Texts without an occurrence of `old`, joined by a character that `old` does
not hold, have no occurrence of `old`. -/
theorem not_infix_joinWith_sep {c : Char} (hc : c ∉ old) (hold : old ≠ []) :
    ∀ ts : List (List Char), (∀ t ∈ ts, ¬ old <:+: t) → ¬ old <:+: joinWith [c] ts := by
  intro ts
  induction ts with
  | nil => exact fun _ h => hold (List.infix_nil.1 h)
  | cons x rest ih =>
    intro hall
    cases rest with
    | nil => exact hall x (List.mem_cons_self _ _)
    | cons y rest =>
      rw [joinWith_cons_cons, List.append_assoc, List.singleton_append]
      intro hi
      rcases infix_of_infix_append_sep old hc hi with h1 | h1
      · exact hall x (List.mem_cons_self _ _) h1
      · exact ih (fun t ht => hall t (List.mem_cons_of_mem _ ht)) h1

/-- The replacement works element by element on texts joined by a character
that `old` does not hold. -/
theorem replaceAll_joinWith_sep (hold : old ≠ []) {c : Char} (hc : c ∉ old) :
    ∀ ts : List (List Char),
      replaceAll (joinWith [c] ts) old new
        = joinWith [c] (ts.map fun t => replaceAll t old new) := by
  intro ts
  induction ts with
  | nil => rfl
  | cons x rest ih =>
    cases rest with
    | nil => rfl
    | cons y rest =>
      rw [joinWith_cons_cons, List.append_assoc, List.singleton_append,
        replaceAll_append_sep old new hold hc _ x.length x (le_refl _), ih]
      simp only [List.map_cons, joinWith_cons_cons, List.append_assoc, List.singleton_append]

end Replace

/-! ## Facts about the marker and the array text -/

theorem escapedMarker_ne_nil : escapedMarker ≠ [] := by decide

theorem normalizeMarker_of_not_infix (t : List Char) (h : ¬ escapedMarker <:+: t) :
    normalizeMarker t = t :=
  replaceAll_of_not_infix escapedMarker literalMarker t h

theorem normalizeMarker_sep {c : Char} (hc : c ∉ escapedMarker) (a b : List Char) :
    normalizeMarker (a ++ c :: b) = normalizeMarker a ++ c :: normalizeMarker b :=
  replaceAll_append_sep escapedMarker literalMarker escapedMarker_ne_nil hc b a.length a
    (le_refl _)

theorem normalizeMarker_cons {c : Char} (hc : c ∉ escapedMarker) (b : List Char) :
    normalizeMarker (c :: b) = c :: normalizeMarker b :=
  normalizeMarker_sep hc [] b

/-- The pattern itself becomes the marker. -/
theorem normalizeMarker_escapedMarker : normalizeMarker escapedMarker = literalMarker := by
  decide

/-- The replacement works element by element on an array text. -/
theorem normalizeMarker_arrayText (elems : List (List Char)) :
    normalizeMarker (arrayText elems) = arrayText (elems.map normalizeMarker) := by
  unfold arrayText
  rw [normalizeMarker_cons (by decide), normalizeMarker_sep (by decide)]
  unfold normalizeMarker
  rw [replaceAll_joinWith_sep escapedMarker literalMarker escapedMarker_ne_nil (by decide)]
  rfl

/-- An array text of elements without the pattern has no occurrence of it. -/
theorem not_infix_arrayText (elems : List (List Char))
    (h : ∀ e ∈ elems, ¬ escapedMarker <:+: e) : ¬ escapedMarker <:+: arrayText elems := by
  unfold arrayText
  intro hi
  rcases infix_of_infix_append_sep escapedMarker (by decide) (a := []) hi with h1 | h1
  · exact escapedMarker_ne_nil (List.infix_nil.1 h1)
  · rcases infix_of_infix_append_sep escapedMarker (by decide) h1 with h2 | h2
    · exact not_infix_joinWith_sep escapedMarker (by decide) escapedMarker_ne_nil elems h h2
    · exact escapedMarker_ne_nil (List.infix_nil.1 h2)

/-- Segments without the pattern, joined by the marker, have no occurrence of
the pattern: the marker starts and ends with a character the pattern lacks. -/
theorem not_infix_joinWith_literalMarker :
    ∀ (segs : List (List Char)) (seg : List Char),
      (∀ t ∈ seg :: segs, ¬ escapedMarker <:+: t) →
      ¬ escapedMarker <:+: joinWith literalMarker (seg :: segs) := by
  intro segs
  induction segs with
  | nil => exact fun seg h => h seg (List.mem_cons_self _ _)
  | cons y rest ih =>
    intro seg h hi
    have hlit : literalMarker = '<' :: ("ignore-diff".toList ++ ['>']) := by decide
    rw [joinWith_cons_cons, hlit, List.append_assoc, List.cons_append, List.append_assoc,
      List.singleton_append] at hi
    rcases infix_of_infix_append_sep escapedMarker (by decide) hi with h1 | h1
    · exact h seg (List.mem_cons_self _ _) h1
    · rcases infix_of_infix_append_sep escapedMarker (by decide) h1 with h2 | h2
      · revert h2
        decide
      · exact ih y (fun t ht => h t (List.mem_cons_of_mem _ ht)) h2

section Render

variable {Doc V : Type}

/-- The pass over the elements succeeds exactly with the encodings of the
elements, one for each, in order. -/
theorem compactAll_eq_ok_iff (lib : Lib Doc V) :
    ∀ (msgs elems : List (List Char)),
      compactAll lib msgs = .ok elems
        ↔ List.Forall₂ (fun m e => lib.compact m = .ok e) msgs elems := by
  intro msgs
  induction msgs with
  | nil =>
    intro elems
    constructor
    · intro h
      injection h with h
      subst h
      exact List.Forall₂.nil
    · intro h
      cases h
      rfl
  | cons m ms ih =>
    intro elems
    constructor
    · intro h
      simp only [compactAll] at h
      cases hm : lib.compact m with
      | error err => rw [hm] at h; cases h
      | ok t =>
        rw [hm] at h
        cases hms : compactAll lib ms with
        | error err => rw [hms] at h; cases h
        | ok ts =>
          rw [hms] at h
          injection h with h
          subst h
          exact List.Forall₂.cons hm ((ih ts).1 hms)
    · intro h
      cases h with
      | cons hm hrest =>
        simp only [compactAll, hm, (ih _).2 hrest]

/-- Valid documents all have an encoding. -/
theorem compactAll_of_valid (lib : Lib Doc V) :
    ∀ docs : List Doc, (∀ d ∈ docs, ∃ t, lib.compact (lib.docString d) = .ok t) →
      ∃ elems, compactAll lib (docs.map lib.docString) = .ok elems := by
  intro docs
  induction docs with
  | nil => exact fun _ => ⟨[], rfl⟩
  | cons d ds ih =>
    intro h
    obtain ⟨t, ht⟩ := h d (List.mem_cons_self _ _)
    obtain ⟨ts, hts⟩ := ih (fun x hx => h x (List.mem_cons_of_mem _ hx))
    exact ⟨t :: ts, by simp only [List.map_cons, compactAll, ht, hts]⟩

/-- The text `docsToExtJSON` returns for documents with the encodings `elems`:
the array of the encodings, each with the pattern replaced. -/
theorem docsToExtJSON_of_compactAll (lib : Lib Doc V) (docs : Option (List Doc))
    (elems : List (List Char))
    (h : compactAll lib ((docs.getD []).map lib.docString) = .ok elems) :
    docsToExtJSON lib docs = .ok (arrayText (elems.map normalizeMarker)) := by
  unfold docsToExtJSON
  by_cases hlen : (docs.getD []).length = 0
  · rw [if_pos hlen]
    have hnil : docs.getD [] = [] := List.length_eq_zero.1 hlen
    rw [hnil] at h
    injection h with h
    subst h
    rfl
  · rw [if_neg hlen]
    simp only [jsonMarshal, h]
    exact congrArg Except.ok (normalizeMarker_arrayText elems)

end Render

/-! ## Serialisation (`docsToExtJSON`) -/

section Serialise

variable {Doc V : Type}

/-- C6, as stated, fails: the document whose `_id` is the string
`<ignored-diff>` has the encoding `{"_id":"\u003cignored-diff\u003e"}`, and the
text returned for the list of this one document is `[{"_id":"<ignore-diff>"}]`,
whose element is not that encoding. -/
theorem docsToExtJSON_array_counterexample :
    flatLib.compact (flatLib.docString [("_id", "<ignored-diff>")])
      = .ok "\x7b\"_id\":\"\\u003cignored-diff\\u003e\"\x7d".toList ∧
    docsToExtJSON flatLib (some [[("_id", "<ignored-diff>")]])
      = .ok "[\x7b\"_id\":\"<ignore-diff>\"\x7d]".toList ∧
    docsToExtJSON flatLib (some [[("_id", "<ignored-diff>")]])
      ≠ .ok (arrayText ["\x7b\"_id\":\"\\u003cignored-diff\\u003e\"\x7d".toList]) := by
  decide

/-- C6, amended. For every list of `N` valid documents `docsToExtJSON` succeeds
and returns the array text of exactly `N` elements, element `i` being the
encoding of document `i` with every occurrence of `\u003cignored-diff\u003e`
replaced by `<ignore-diff>`, in input order; when no encoding holds the
pattern the elements are the encodings themselves; and for the nil and the
empty list the text is `[]`. -/
theorem docsToExtJSON_array (lib : Lib Doc V) (docs : List Doc)
    (hvalid : ∀ d ∈ docs, ∃ t, lib.compact (lib.docString d) = .ok t) :
    (∃ elems : List (List Char),
      List.Forall₂ (fun d e => lib.compact (lib.docString d) = .ok e) docs elems ∧
      elems.length = docs.length ∧
      docsToExtJSON lib (some docs) = .ok (arrayText (elems.map normalizeMarker)) ∧
      ((∀ e ∈ elems, ¬ escapedMarker <:+: e) →
        docsToExtJSON lib (some docs) = .ok (arrayText elems))) ∧
    (docs = [] → docsToExtJSON lib (some docs) = .ok ['[', ']']) ∧
    docsToExtJSON lib none = .ok ['[', ']'] := by
  obtain ⟨elems, helems⟩ := compactAll_of_valid lib docs hvalid
  have hall := (compactAll_eq_ok_iff lib _ _).1 helems
  rw [List.forall₂_map_left_iff] at hall
  have hout := docsToExtJSON_of_compactAll lib (some docs) elems helems
  refine ⟨⟨elems, hall, hall.length_eq.symm, hout, ?_⟩, ?_, rfl⟩
  · intro hfree
    rw [hout]
    congr 2
    calc elems.map normalizeMarker = elems.map id :=
          List.map_congr_left (fun e he => normalizeMarker_of_not_infix e (hfree e he))
      _ = elems := List.map_id elems
  · intro hnil
    subst hnil
    rfl

/-- C6 at two documents, the first with a bracketed value. -/
theorem docsToExtJSON_array_witness :
    (∃ elems : List (List Char),
      List.Forall₂ (fun d e => flatLib.compact (flatLib.docString d) = .ok e)
        [[("name", "<John>")], [("name", "Jane")]] elems ∧
      elems.length = [[("name", "<John>")], [("name", "Jane")]].length ∧
      docsToExtJSON flatLib (some [[("name", "<John>")], [("name", "Jane")]])
        = .ok (arrayText (elems.map normalizeMarker)) ∧
      ((∀ e ∈ elems, ¬ escapedMarker <:+: e) →
        docsToExtJSON flatLib (some [[("name", "<John>")], [("name", "Jane")]])
          = .ok (arrayText elems))) ∧
    docsToExtJSON flatLib (some [[("name", "<John>")], [("name", "Jane")]])
      = .ok "[\x7b\"name\":\"\\u003cJohn\\u003e\"\x7d,\x7b\"name\":\"Jane\"\x7d]".toList :=
  ⟨(docsToExtJSON_array flatLib [[("name", "<John>")], [("name", "Jane")]]
      (fun d _ => ⟨_, rfl⟩)).1, by decide⟩

/-- C7, as stated, fails: the document whose `_id` is the string
`<ignored-diff>` does not hold the marker `<ignore-diff>`, the codec reads its
plain array text back as the same document, and yet `docsToExtJSON` followed by
`bytesToDocs` returns a document whose `_id` is `<ignore-diff>`. -/
theorem roundTrip_counterexample :
    ¬ literalMarker <:+: flatLib.docString [("_id", "<ignored-diff>")] ∧
    flatLib.unmarshalDocs (arrayText ["\x7b\"_id\":\"\\u003cignored-diff\\u003e\"\x7d".toList])
      = .ok (some [[("_id", "<ignored-diff>")]]) ∧
    docsToExtJSON flatLib (some [[("_id", "<ignored-diff>")]])
      = .ok "[\x7b\"_id\":\"<ignore-diff>\"\x7d]".toList ∧
    bytesToDocs flatLib "[\x7b\"_id\":\"<ignore-diff>\"\x7d]".toList
      = .ok (some [[("_id", "<ignore-diff>")]]) ∧
    [[("_id", "<ignore-diff>")]] ≠ [[(("_id", "<ignored-diff>") : String × String)]] := by
  decide

/-- C8, as stated, fails: for the document whose `_id` is the string
`<ignore-diff>` the returned text is `[{"_id":"\u003cignore-diff\u003e"}]`,
which holds the escaped form of the marker. -/
theorem noEscapedMarker_counterexample :
    docsToExtJSON flatLib (some [[("_id", "<ignore-diff>")]])
      = .ok "[\x7b\"_id\":\"\\u003cignore-diff\\u003e\"\x7d]".toList ∧
    "\\u003cignore-diff\\u003e".toList <:+: "[\x7b\"_id\":\"\\u003cignore-diff\\u003e\"\x7d]".toList := by
  decide

/-- C8, amended. For every non-empty document list that `json.Marshal` encodes
as `raw`, the text `docsToExtJSON` returns holds no `\u003cignored-diff\u003e`:
`raw` is a sequence of segments free of that pattern with the pattern between
them, and the returned text is the same segments with `<ignore-diff>` between
them, so nothing else is changed. -/
theorem noEscapedMarker (lib : Lib Doc V) (docs : List Doc) (raw : List Char)
    (hne : docs ≠ []) (hraw : jsonMarshal lib (docs.map lib.docString) = .ok raw) :
    ∃ out seg segs, docsToExtJSON lib (some docs) = .ok out ∧
      ¬ escapedMarker <:+: out ∧
      raw = joinWith escapedMarker (seg :: segs) ∧
      out = joinWith literalMarker (seg :: segs) ∧
      ∀ t ∈ seg :: segs, ¬ escapedMarker <:+: t := by
  obtain ⟨seg, segs, h1, h2, h3⟩ :=
    replaceAll_segments escapedMarker literalMarker escapedMarker_ne_nil raw.length raw
      (le_refl _)
  refine ⟨replaceAll raw escapedMarker literalMarker, seg, segs, ?_, ?_, h1, h2, h3⟩
  · unfold docsToExtJSON
    have hlen : ¬ ((some docs).getD []).length = 0 := by
      simpa using hne
    rw [if_neg hlen]
    simp only [Option.getD_some, hraw]
  · rw [h2]
    exact not_infix_joinWith_literalMarker segs seg h3

/-- C8 at a document whose `_id` is the string `<ignored-diff>`. -/
theorem noEscapedMarker_witness :
    ∃ out seg segs, docsToExtJSON flatLib (some [[("_id", "<ignored-diff>")]]) = .ok out ∧
      ¬ escapedMarker <:+: out ∧
      "[\x7b\"_id\":\"\\u003cignored-diff\\u003e\"\x7d]".toList
        = joinWith escapedMarker (seg :: segs) ∧
      out = joinWith literalMarker (seg :: segs) ∧
      ∀ t ∈ seg :: segs, ¬ escapedMarker <:+: t :=
  noEscapedMarker flatLib [[("_id", "<ignored-diff>")]]
    "[\x7b\"_id\":\"\\u003cignored-diff\\u003e\"\x7d]".toList (by decide) (by decide)

end Serialise

/-! ## The marker in the exact-contents assertion -/

theorem normalizeMarker_expectedText (h : IdHole) (hsep : h.sep = ',' ∨ h.sep = '}') :
    normalizeMarker h.expectedText = h.expectedOut := by
  have hs : h.sep ∉ escapedMarker := by
    rcases hsep with hs | hs <;> rw [hs] <;> decide
  unfold IdHole.expectedText IdHole.expectedOut
  rw [normalizeMarker_sep (by decide), normalizeMarker_cons (by decide),
    normalizeMarker_sep (by decide), normalizeMarker_escapedMarker, normalizeMarker_cons hs]

theorem normalizeMarker_actualText (h : IdHole) (hsep : h.sep = ',' ∨ h.sep = '}') :
    normalizeMarker h.actualText = h.actualOut := by
  have hs : h.sep ∉ escapedMarker := by
    rcases hsep with hs | hs <;> rw [hs] <;> decide
  unfold IdHole.actualText IdHole.actualOut
  rw [normalizeMarker_sep (by decide), normalizeMarker_sep hs]

section Marker

variable {σ Conn Cur Doc V : Type}

/-- The text `docsToExtJSON` returns for documents whose encodings are given by
a function of the holes, when replacing the pattern turns `text` into `out`. -/
theorem docsToExtJSON_of_holes (lib : Lib Doc V) (docs : Option (List Doc))
    (holes : List IdHole) (text out : IdHole → List Char)
    (hnorm : ∀ h ∈ holes, normalizeMarker (text h) = out h)
    (hdocs : List.Forall₂ (fun d h => lib.compact (lib.docString d) = .ok (text h))
      (docs.getD []) holes) :
    docsToExtJSON lib docs = .ok (arrayText (holes.map out)) := by
  have helems : compactAll lib ((docs.getD []).map lib.docString) = .ok (holes.map text) :=
    (compactAll_eq_ok_iff lib _ _).2
      (List.forall₂_map_left_iff.2 (List.forall₂_map_right_iff.2 hdocs))
  rw [docsToExtJSON_of_compactAll lib docs _ helems, List.map_map]
  congr 2
  exact List.map_congr_left (fun h hh => hnorm h hh)

/-- The marker in place of a value. When every expected document holds the
string `<ignored-diff>` as the value of a field (its encoding has `"\u003cignored-diff\u003e"` behind the
field's colon) and is otherwise encoded as the actual document at the same
position, whose value of that field is arbitrary, `docsToExtJSON` renders the
expected value as the literal text `"<ignore-diff>"`; the comparer is called
with two texts that differ only in that the expected one has this marker where
the actual one has its value, and the exact-contents assertion returns a nil
error as the comparer accepts the marker there. -/
theorem ignoredDiff_rendered (drv : Driver σ Conn Cur Doc V) (lib : Lib Doc V)
    (m : Manager Conn) (ctx : Context Doc) (c dbName : String) (payload : Option DocString)
    (s s1 : σ) (db : Database Conn) (expectedDocs actualDocs : Option (List Doc))
    (holes : List IdHole)
    (hdb : m.getDatabase lib dbName = .ok db)
    (hparse : stringToDocs lib payload = .ok expectedDocs)
    (hfind : db.find drv lib c [] sortedById s = (.ok actualDocs, s1))
    (hexp : List.Forall₂ (fun d h => lib.compact (lib.docString d) = .ok h.expectedText)
      (expectedDocs.getD []) holes)
    (hact : List.Forall₂ (fun d h => lib.compact (lib.docString d) = .ok h.actualText)
      (actualDocs.getD []) holes)
    (hsep : ∀ h ∈ holes, h.sep = ',' ∨ h.sep = '}')
    (hcmp : lib.failNotEqual (arrayText (holes.map IdHole.expectedOut))
      (arrayText (holes.map IdHole.actualOut)) = none) :
    docsToExtJSON lib expectedDocs = .ok (arrayText (holes.map IdHole.expectedOut)) ∧
    docsToExtJSON lib actualDocs = .ok (arrayText (holes.map IdHole.actualOut)) ∧
    (∀ h ∈ holes, ('"' :: (literalMarker ++ ['"'])) <:+: h.expectedOut) ∧
    m.haveOnlyTheseDocumentsAvailableInCollectionOfDatabase drv lib ctx c dbName payload s
      = ((ctx, none), s1) := by
  have hE := docsToExtJSON_of_holes lib expectedDocs holes IdHole.expectedText
    IdHole.expectedOut (fun h hh => normalizeMarker_expectedText h (hsep h hh)) hexp
  have hA := docsToExtJSON_of_holes lib actualDocs holes IdHole.actualText
    IdHole.actualOut (fun h hh => normalizeMarker_actualText h (hsep h hh)) hact
  refine ⟨hE, hA, ?_, ?_⟩
  · intro h _
    refine ⟨normalizeMarker h.pre ++ [':'], h.sep :: normalizeMarker h.post, ?_⟩
    simp [IdHole.expectedOut]
  · unfold Manager.haveOnlyTheseDocumentsAvailableInCollectionOfDatabase
    rw [hdb]
    simp only [hparse, hfind, hE, hA, hcmp]

end Marker

/-- The two customers, whose identifiers are `1` and `2`: the expected payload
with `<ignored-diff>` identifiers passes. -/
theorem ignoredDiff_rendered_witness :
    docsToExtJSON flatLib (some [[("_id", "<ignored-diff>"), ("name", "John Doe")],
        [("_id", "<ignored-diff>"), ("name", "Jane Doe")]])
      = .ok (arrayText (customerHoles.map IdHole.expectedOut)) ∧
    docsToExtJSON flatLib (some (memCollection twoCustomers "customer"))
      = .ok (arrayText (customerHoles.map IdHole.actualOut)) ∧
    (∀ h ∈ customerHoles, ('"' :: (literalMarker ++ ['"'])) <:+: h.expectedOut) ∧
    memManager.haveOnlyTheseDocumentsAvailableInCollectionOfDatabase memDriver flatLib
        (Context.background : Context FlatDoc) "customer" "default" (some ignoredIds)
        twoCustomers
      = ((.background, none), twoCustomers) :=
  ignoredDiff_rendered memDriver flatLib memManager .background "customer" "default"
    (some ignoredIds) twoCustomers twoCustomers { conn := (), cleanUps := [] }
    (some [[("_id", "<ignored-diff>"), ("name", "John Doe")],
      [("_id", "<ignored-diff>"), ("name", "Jane Doe")]])
    (some (memCollection twoCustomers "customer")) customerHoles rfl (by decide) (by decide)
    (List.Forall₂.cons (by decide) (List.Forall₂.cons (by decide) List.Forall₂.nil))
    (List.Forall₂.cons (by decide) (List.Forall₂.cons (by decide) List.Forall₂.nil))
    (by decide) (by decide)

/-! ## Equal documents, the search result, and parse failures -/

section Assertions

variable {σ Conn Cur Doc V : Type}

/-- Equal documents. When the payload parses to the documents `D`, the documents are valid
and the comparer accepts a text against itself, the exact-contents assertion
returns a nil error on a collection whose fetch returns `D`, and the assertion
on the search result returns a nil error on every context whose search result
is `D` (the empty `D` included, whose text is `[]`). -/
theorem sameDocuments_pass (lib : Lib Doc V) (text : List Char) (D : List Doc)
    (expectedDocs : Option (List Doc)) (elems : List (List Char))
    (hparse : bytesToDocs lib text = .ok expectedDocs) (hD : expectedDocs.getD [] = D)
    (hvalid : List.Forall₂ (fun d e => lib.compact (lib.docString d) = .ok e) D elems)
    (hcmp : lib.failNotEqual (arrayText (elems.map normalizeMarker))
      (arrayText (elems.map normalizeMarker)) = none) :
    (∀ (drv : Driver σ Conn Cur Doc V) (m : Manager Conn) (ctx : Context Doc)
        (c dbName : String) (s s1 : σ) (db : Database Conn) (actualDocs : Option (List Doc)),
      m.getDatabase lib dbName = .ok db →
      db.find drv lib c [] sortedById s = (.ok actualDocs, s1) →
      actualDocs.getD [] = D →
      m.haveOnlyTheseDocumentsAvailableInCollectionOfDatabase drv lib ctx c dbName
        (some ⟨text⟩) s = ((ctx, none), s1)) ∧
    (∀ (m : Manager Conn) (ctx : Context Doc), docsFromContext ctx = some D →
      m.haveDocumentsInSearchResult lib ctx (some ⟨text⟩) = (ctx, none)) := by
  have hE : docsToExtJSON lib expectedDocs = .ok (arrayText (elems.map normalizeMarker)) := by
    apply docsToExtJSON_of_compactAll
    rw [hD]
    exact (compactAll_eq_ok_iff lib _ _).2 (List.forall₂_map_left_iff.2 hvalid)
  have hA : ∀ actualDocs : Option (List Doc), actualDocs.getD [] = D →
      docsToExtJSON lib actualDocs = .ok (arrayText (elems.map normalizeMarker)) := by
    intro actualDocs hact
    apply docsToExtJSON_of_compactAll
    rw [hact]
    exact (compactAll_eq_ok_iff lib _ _).2 (List.forall₂_map_left_iff.2 hvalid)
  have hstr : stringToDocs lib (some ⟨text⟩) = .ok expectedDocs := hparse
  constructor
  · intro drv m ctx c dbName s s1 db actualDocs hdb hfind hact
    unfold Manager.haveOnlyTheseDocumentsAvailableInCollectionOfDatabase
    rw [hdb]
    simp only [hstr, hfind, hE, hA actualDocs hact, hcmp]
  · intro m ctx hctx
    unfold Manager.haveDocumentsInSearchResult
    rw [hctx]
    simp only [hstr, hE, hA (some D) rfl, hcmp]

end Assertions

/-- The two customers: their payload passes against the collection and against
a search result that holds them. -/
theorem sameDocuments_pass_witness :
    memManager.haveOnlyTheseDocumentsAvailableInCollectionOfDatabase memDriver flatLib
        (Context.background : Context FlatDoc) "customer" "default" (some ⟨customersPayload⟩)
        twoCustomers
      = ((.background, none), twoCustomers) ∧
    memManager.haveDocumentsInSearchResult flatLib
        (contextWithDocs .background (some (memCollection twoCustomers "customer")))
        (some ⟨customersPayload⟩)
      = (contextWithDocs .background (some (memCollection twoCustomers "customer")), none) :=
  have h := @sameDocuments_pass MemState Unit (List FlatDoc) FlatDoc String flatLib
    customersPayload (memCollection twoCustomers "customer")
    (some (memCollection twoCustomers "customer"))
    ["\x7b\"_id\":\"1\",\"name\":\"John Doe\"\x7d".toList,
      "\x7b\"_id\":\"2\",\"name\":\"Jane Doe\"\x7d".toList]
    (by decide) rfl
    (List.Forall₂.cons (by decide) (List.Forall₂.cons (by decide) List.Forall₂.nil))
    (by decide)
  ⟨h.1 memDriver memManager .background "customer" "default" twoCustomers twoCustomers
      { conn := (), cleanUps := [] } (some (memCollection twoCustomers "customer")) rfl
      (by decide) rfl,
    h.2 memManager _ rfl⟩

/-- No documents: the payload `[]` passes against an empty search result. -/
theorem sameDocuments_pass_empty :
    memManager.haveDocumentsInSearchResult flatLib
        (contextWithDocs (Context.background : Context FlatDoc) (some []))
        (some ⟨['[', ']']⟩)
      = (contextWithDocs .background (some []), none) := by
  decide

section SearchAndParse

variable {σ Conn Cur Doc V : Type}

/-- A successful `find` returns a non-nil slice. -/
theorem find_ok_some (drv : Driver σ Conn Cur Doc V) (lib : Lib Doc V) (db : Database Conn)
    (c : String) (filter : BsonD V) (opts : FindOptions) (s s1 : σ)
    (result : Option (List Doc)) (h : db.find drv lib c filter opts s = (.ok result, s1)) :
    ∃ l, result = some l := by
  unfold Database.find at h
  cases hf : drv.find db.conn c filter opts s with
  | mk r sf =>
    rw [hf] at h
    cases r with
    | error err => simp at h
    | ok cursor =>
      simp only at h
      cases ha : drv.cursorAll cursor sf with
      | mk r2 sa =>
        rw [ha] at h
        cases r2 with
        | error err => simp at h
        | ok res =>
          simp only at h
          by_cases hlen : (res.getD []).length = 0
          · rw [if_pos hlen] at h
            injection h with h1 _
            injection h1 with h1
            exact ⟨[], h1.symm⟩
          · rw [if_neg hlen] at h
            injection h with h1 _
            injection h1 with h1
            subst h1
            cases res with
            | none => exact absurd rfl hlen
            | some l => exact ⟨l, rfl⟩

/-- C12. The search result stored with `contextWithDocs` is the one
`docsFromContext` reads, whatever the context held before; a context on which
`contextWithDocs` was never applied has the nil result; and a search whose
database is registered, whose filter parses and whose `find` succeeds returns
the given context extended with exactly the documents `find` returned. -/
theorem searchResult_stored (drv : Driver σ Conn Cur Doc V) (lib : Lib Doc V)
    (m : Manager Conn) (ctx : Context Doc) (c dbName : String) (data : Option DocString)
    (s s1 : σ) (db : Database Conn) (filter : BsonD V) (result : Option (List Doc))
    (hdb : m.getDatabase lib dbName = .ok db) (hfilter : stringToBSOND lib data = .ok filter)
    (hfind : db.find drv lib c filter sortedById s = (.ok result, s1)) :
    (∀ (ctx0 : Context Doc) (d : List Doc),
      docsFromContext (contextWithDocs ctx0 (some d)) = some d) ∧
    (∀ ctx0 : Context Doc, ctx0.neverSearched = true → docsFromContext ctx0 = none) ∧
    m.searchInCollectionOfDatabase drv lib ctx c dbName data s
      = ((contextWithDocs ctx result, none), s1) ∧
    docsFromContext (contextWithDocs ctx result) = result := by
  refine ⟨fun _ _ => rfl, ?_, ?_, ?_⟩
  · intro ctx0 h0
    cases ctx0 with
    | background => rfl
    | withValue parent key val =>
      simp only [Context.neverSearched, Bool.and_eq_true, bne_iff_ne, ne_eq] at h0
      unfold docsFromContext Context.value
      rw [if_neg h0.1]
      have : ∀ p : Context Doc, p.neverSearched = true → p.value .queryer = none := by
        intro p
        induction p with
        | background => intro _; rfl
        | withValue q k v ih =>
          intro hp
          simp only [Context.neverSearched, Bool.and_eq_true, bne_iff_ne, ne_eq] at hp
          unfold Context.value
          rw [if_neg hp.1]
          exact ih hp.2
      rw [this parent h0.2]
  · unfold Manager.searchInCollectionOfDatabase
    rw [hdb]
    simp only [hfilter, hfind]
  · obtain ⟨l, hl⟩ := find_ok_some drv lib db c filter sortedById s s1 result hfind
    subst hl
    rfl

/-- C13. On a nil doc string `stringToDocs` returns the error `data is nil`
and no documents; inline seeding on a registered database then fails with
`failed to parse documents: data is nil`, and the driver state is the one
before the call: nothing is inserted. -/
theorem nilPayload_notStored (drv : Driver σ Conn Cur Doc V) (lib : Lib Doc V)
    (m : Manager Conn) (ctx : Context Doc) (c dbName : String) (s : σ) (db : Database Conn)
    (hdb : m.getDatabase lib dbName = .ok db) :
    stringToDocs lib none = .error (.new "data is nil") ∧
    m.theseDocumentsAreStoredInCollectionOfDatabase drv lib ctx c dbName none s
      = ((ctx, some (errorfW "failed to parse documents" (.new "data is nil"))), s) ∧
    (errorfW "failed to parse documents" (.new "data is nil")).message
      = "failed to parse documents: data is nil" := by
  refine ⟨rfl, ?_, by decide⟩
  unfold Manager.theseDocumentsAreStoredInCollectionOfDatabase
  rw [hdb]
  rfl

/-- C14. On a nil doc string `stringToBSOND` returns the empty document and a
nil error, for every library (the decoder is not consulted); the search steps
without a query pass the nil doc string, so on a registered database they run
`find` with the empty filter. -/
theorem emptyFilter_matchAll (drv : Driver σ Conn Cur Doc V) (lib : Lib Doc V)
    (m : Manager Conn) (ctx : Context Doc) (c dbName : String) (s : σ) (db : Database Conn)
    (hdb : m.getDatabase lib dbName = .ok db) :
    stringToBSOND lib none = .ok [] ∧
    m.stepSearch drv lib ctx c s = m.stepSearchOfDatabase drv lib ctx c defaultDatabase s ∧
    m.stepSearchOfDatabase drv lib ctx c dbName s
      = (match db.find drv lib c [] sortedById s with
        | (.error err, s1) => ((ctx, some err), s1)
        | (.ok result, s1) => ((contextWithDocs ctx result, none), s1)) := by
  refine ⟨rfl, rfl, ?_⟩
  unfold Manager.stepSearchOfDatabase Manager.searchInCollectionOfDatabase
  rw [hdb]
  rfl

/-- C19. When the decoder fails on a payload with `e`, `bytesToDocs` returns
no documents and the error that wraps `e` with the message
`error unmarshaling extjson: ` followed by the message of `e`; seeding from a
file with that content returns this error itself, inline seeding returns it
wrapped with `failed to parse documents: ` in front; in both cases the driver
state is the one before the call: nothing is inserted. -/
theorem parseFailure_notStored (drv : Driver σ Conn Cur Doc V) (lib : Lib Doc V)
    (m : Manager Conn) (ctx : Context Doc) (c dbName filePath : String) (s : σ)
    (db : Database Conn) (data : List Char) (e : GoError)
    (hdb : m.getDatabase lib dbName = .ok db) (hdec : lib.unmarshalDocs data = .error e)
    (hread : lib.readFile filePath = .ok data) :
    bytesToDocs lib data = .error (errorfW "error unmarshaling extjson" e) ∧
    (errorfW "error unmarshaling extjson" e).message
      = "error unmarshaling extjson: " ++ e.message ∧
    (errorfW "error unmarshaling extjson" e).unwrap = some e ∧
    m.theseDocumentsFromFileAreStoredInCollectionOfDatabase drv lib ctx filePath c dbName s
      = ((ctx, some (errorfW "error unmarshaling extjson" e)), s) ∧
    m.theseDocumentsAreStoredInCollectionOfDatabase drv lib ctx c dbName (some ⟨data⟩) s
      = ((ctx, some (errorfW "failed to parse documents"
          (errorfW "error unmarshaling extjson" e))), s) ∧
    (errorfW "failed to parse documents" (errorfW "error unmarshaling extjson" e)).message
      = "failed to parse documents: " ++ ("error unmarshaling extjson: " ++ e.message) ∧
    (errorfW "failed to parse documents" (errorfW "error unmarshaling extjson" e)).unwrap
      = some (errorfW "error unmarshaling extjson" e) := by
  have hbytes : bytesToDocs lib data = .error (errorfW "error unmarshaling extjson" e) := by
    unfold bytesToDocs
    rw [hdec]
  refine ⟨hbytes, rfl, rfl, ?_, ?_, rfl, rfl⟩
  · unfold Manager.theseDocumentsFromFileAreStoredInCollectionOfDatabase
    rw [hdb]
    simp only [hread, hbytes]
  · unfold Manager.theseDocumentsAreStoredInCollectionOfDatabase
    rw [hdb]
    simp only [stringToDocs, hbytes]

end SearchAndParse

/-- C12 on the two customers: a search on a context that already holds a
result returns a context whose result is the two customers. -/
theorem searchResult_stored_witness :
    memManager.searchInCollectionOfDatabase memDriver flatLib
        (contextWithDocs .background (some [[("name", "old")]])) "customer" "default" none
        twoCustomers
      = ((contextWithDocs (contextWithDocs .background (some [[("name", "old")]]))
          (some (memCollection twoCustomers "customer")), none), twoCustomers) ∧
    docsFromContext (contextWithDocs (contextWithDocs .background (some [[("name", "old")]]))
        (some (memCollection twoCustomers "customer")))
      = some (memCollection twoCustomers "customer") :=
  (searchResult_stored memDriver flatLib memManager
    (contextWithDocs .background (some [[("name", "old")]])) "customer" "default" none
    twoCustomers twoCustomers { conn := (), cleanUps := [] } []
    (some (memCollection twoCustomers "customer")) rfl rfl (by decide)).2.2

/-- C13 on the recording driver: the log stays empty. -/
theorem nilPayload_notStored_witness :
    memManager.theseDocumentsAreStoredInCollectionOfDatabase (recDriver fun _ => false) flatLib
        (Context.background : Context FlatDoc) "customer" "default" none []
      = ((.background, some (errorfW "failed to parse documents" (.new "data is nil"))), []) :=
  (nilPayload_notStored (recDriver fun _ => false) flatLib memManager .background "customer"
    "default" [] { conn := (), cleanUps := [] } rfl).2.1

/-- C14 on the recording driver: the search step without a query calls `find`
on the collection, reads the cursor and closes it. -/
theorem emptyFilter_matchAll_witness :
    memManager.stepSearch (recDriver fun _ => false) flatLib
        (Context.background : Context FlatDoc) "customer" []
      = ((contextWithDocs .background (some []), none),
          [Call.find "customer", Call.readAll, Call.close]) :=
  ((emptyFilter_matchAll (recDriver fun _ => false) flatLib memManager .background "customer"
    "default" [] { conn := (), cleanUps := [] } rfl).2.1).trans (by decide)

/-- C19 on the file `malformed.json`, whose content is `malformed`: both ways of
seeding fail and the log stays empty. -/
theorem parseFailure_notStored_witness :
    memManager.theseDocumentsFromFileAreStoredInCollectionOfDatabase
        (recDriver fun _ => false) (flatLibWithFile "malformed.json" "malformed".toList)
        (Context.background : Context FlatDoc) "malformed.json" "customer" "default" []
      = ((.background,
          some (errorfW "error unmarshaling extjson" (.new "invalid JSON input"))), []) ∧
    memManager.theseDocumentsAreStoredInCollectionOfDatabase
        (recDriver fun _ => false) (flatLibWithFile "malformed.json" "malformed".toList)
        (Context.background : Context FlatDoc) "customer" "default"
        (some ⟨"malformed".toList⟩) []
      = ((.background, some (errorfW "failed to parse documents"
          (errorfW "error unmarshaling extjson" (.new "invalid JSON input")))), []) ∧
    (errorfW "failed to parse documents"
        (errorfW "error unmarshaling extjson" (.new "invalid JSON input"))).message
      = "failed to parse documents: error unmarshaling extjson: invalid JSON input" :=
  have h := parseFailure_notStored (recDriver fun _ => false)
    (flatLibWithFile "malformed.json" "malformed".toList) memManager .background "customer"
    "default" "malformed.json" [] { conn := (), cleanUps := [] } "malformed".toList
    (.new "invalid JSON input") rfl (by decide) (by decide)
  ⟨h.2.2.2.1, h.2.2.2.2.1, by decide⟩

/-! ## The database wrapper's errors -/

section WrapperErrors

variable {σ Conn Cur Doc V : Type}

/-- C15. Each operation of the database wrapper turns a failure `e` of its
driver call into the error that wraps `e` and whose message is the operation's
prefix with the quoted collection name, a colon and a blank, and the message of
`e`; `find` does so for the query and for the reading of the cursor, each with
its own prefix. When the driver calls succeed the operation returns no
error. -/
theorem wrapper_errors (drv : Driver σ Conn Cur Doc V) (lib : Lib Doc V) (d : Database Conn)
    (c : String) (s : σ) :
    (∀ (pre : String) (e : GoError),
      (errorfW pre e).unwrap = some e ∧ (errorfW pre e).message = pre ++ ": " ++ e.message) ∧
    (∀ filter opts e s1, drv.find d.conn c filter opts s = (.error e, s1) →
      d.find drv lib c filter opts s
        = (.error (errorfW ("could not find documents in collection " ++ quote lib.isPrint c)
            e), s1)) ∧
    (∀ filter opts cursor s1 e s2, drv.find d.conn c filter opts s = (.ok cursor, s1) →
      drv.cursorAll cursor s1 = (.error e, s2) →
      d.find drv lib c filter opts s
        = (.error (errorfW ("could not read documents from collection "
            ++ quote lib.isPrint c) e), drv.cursorClose cursor s2)) ∧
    (∀ filter opts cursor s1 result s2, drv.find d.conn c filter opts s = (.ok cursor, s1) →
      drv.cursorAll cursor s1 = (.ok result, s2) →
      ∃ docs, d.find drv lib c filter opts s = (.ok docs, drv.cursorClose cursor s2)) ∧
    (∀ e s1, drv.deleteMany d.conn c [] s = (some e, s1) →
      d.truncate drv lib c s
        = (some (errorfW ("could not truncate collection " ++ quote lib.isPrint c) e), s1)) ∧
    (∀ s1, drv.deleteMany d.conn c [] s = (none, s1) → d.truncate drv lib c s = (none, s1)) ∧
    (∀ docs e s1, drv.insertMany d.conn c (docs.getD []) s = (some e, s1) →
      d.store drv lib c docs s
        = (some (errorfW ("could not insert documents into collection "
            ++ quote lib.isPrint c) e), s1)) ∧
    (∀ docs s1, drv.insertMany d.conn c (docs.getD []) s = (none, s1) →
      d.store drv lib c docs s = (none, s1)) ∧
    (∀ filter e s1, drv.countDocuments d.conn c filter s = (.error e, s1) →
      d.count drv lib c filter s
        = (.error (errorfW ("could not count documents in collection "
            ++ quote lib.isPrint c) e), s1)) ∧
    (∀ filter n s1, drv.countDocuments d.conn c filter s = (.ok n, s1) →
      d.count drv lib c filter s = (.ok n, s1)) := by
  refine ⟨fun _ _ => ⟨rfl, rfl⟩, ?_, ?_, ?_, ?_, ?_, ?_, ?_, ?_, ?_⟩
  · intro filter opts e s1 h
    simp only [Database.find, h]
  · intro filter opts cursor s1 e s2 h1 h2
    simp only [Database.find, h1, h2]
  · intro filter opts cursor s1 result s2 h1 h2
    simp only [Database.find, h1, h2]
    by_cases hlen : (result.getD []).length = 0
    · exact ⟨some [], by rw [if_pos hlen]⟩
    · exact ⟨result, by rw [if_neg hlen]⟩
  · intro e s1 h
    simp only [Database.truncate, h]
  · intro s1 h
    simp only [Database.truncate, h]
  · intro docs e s1 h
    simp only [Database.store, h]
  · intro docs s1 h
    simp only [Database.store, h]
  · intro filter e s1 h
    simp only [Database.count, h]
  · intro filter n s1 h
    simp only [Database.count, h]

/-- C16. `store` hands its documents to the driver as they are: its error and
the driver state it leaves are those of the one call of `InsertMany` with the
documents of the list, in order, the error wrapped with the insert prefix; so
when the driver rejects the empty list, `store` on an empty or nil list returns
that rejection with the message
`could not insert documents into collection "<c>": must provide at least one
element in input slice`. On the recording driver `store` adds exactly one call
to the log, the insert of the documents as given. -/
theorem store_passThrough (drv : Driver σ Conn Cur Doc V) (lib : Lib Doc V) (d : Database Conn)
    (c : String) (s s1 : σ)
    (hreject : drv.insertMany d.conn c [] s
      = (some (.new "must provide at least one element in input slice"), s1)) :
    (∀ docs : Option (List Doc),
      d.store drv lib c docs s
        = ((drv.insertMany d.conn c (docs.getD []) s).1.map
            (errorfW ("could not insert documents into collection " ++ quote lib.isPrint c)),
          (drv.insertMany d.conn c (docs.getD []) s).2)) ∧
    (∀ docs : Option (List Doc), docs.getD [] = [] →
      d.store drv lib c docs s
        = (some (errorfW ("could not insert documents into collection " ++ quote lib.isPrint c)
            (.new "must provide at least one element in input slice")), s1)) ∧
    (errorfW ("could not insert documents into collection " ++ quote lib.isPrint c)
        (.new "must provide at least one element in input slice")).message
      = "could not insert documents into collection " ++ quote lib.isPrint c
        ++ ": must provide at least one element in input slice" ∧
    (∀ (bad : String → Bool) (d1 : Database Unit) (docs : Option (List FlatDoc))
        (log : List Call),
      (d1.store (recDriver bad) flatLib c docs log).2
        = log ++ [Call.insert c (docs.getD [])]) := by
  have hgen : ∀ docs : Option (List Doc),
      d.store drv lib c docs s
        = ((drv.insertMany d.conn c (docs.getD []) s).1.map
            (errorfW ("could not insert documents into collection " ++ quote lib.isPrint c)),
          (drv.insertMany d.conn c (docs.getD []) s).2) := by
    intro docs
    unfold Database.store
    cases h : drv.insertMany d.conn c (docs.getD []) s with
    | mk r s2 => cases r <;> rfl
  refine ⟨hgen, ?_, ?_, ?_⟩
  · intro docs hdocs
    rw [hgen docs, hdocs, hreject]
    rfl
  · simp only [errorfW, GoError.message, String.append_assoc]
    rfl
  · intro bad d1 docs log
    unfold Database.store
    split <;> rename_i h <;> exact (congrArg Prod.snd h).symm

end WrapperErrors

/-- C15 on the recording driver with the collection `customer` failing: the
truncate error of the tests, and the errors of the other operations. -/
theorem wrapper_errors_witness :
    (({ conn := (), cleanUps := [] } : Database Unit).truncate
        (recDriver fun c => c == "customer") flatLib "customer" []).1
      = some (.wrap "could not truncate collection \"customer\": command failed"
          (.new "command failed")) ∧
    (({ conn := (), cleanUps := [] } : Database Unit).find
        (recDriver fun c => c == "customer") flatLib "customer" [] sortedById []).1
      = .error (.wrap "could not find documents in collection \"customer\": command failed"
          (.new "command failed")) ∧
    (({ conn := (), cleanUps := [] } : Database Unit).count
        (recDriver fun c => c == "customer") flatLib "customer" [] []).1
      = .error (.wrap "could not count documents in collection \"customer\": command failed"
          (.new "command failed")) ∧
    (({ conn := (), cleanUps := [] } : Database Unit).store
        (recDriver fun c => c == "customer") flatLib "customer" (some [[("a", "b")]]) []).1
      = some (.wrap "could not insert documents into collection \"customer\": command failed"
          (.new "command failed")) :=
  have h := wrapper_errors (recDriver fun c => c == "customer") flatLib
    ({ conn := (), cleanUps := [] } : Database Unit) "customer" []
  ⟨congrArg Prod.fst (h.2.2.2.2.1 _ _ rfl), congrArg Prod.fst (h.2.1 [] sortedById _ _ rfl),
    congrArg Prod.fst (h.2.2.2.2.2.2.2.2.1 [] _ _ rfl),
    congrArg Prod.fst (h.2.2.2.2.2.2.1 (some [[("a", "b")]]) _ _ rfl)⟩

/-- C16 on the recording driver: one insert call is recorded, with the
documents as given, and the empty list comes back as the driver's rejection. -/
theorem store_passThrough_witness :
    ({ conn := (), cleanUps := [] } : Database Unit).store (recDriver fun _ => false) flatLib
        "customer" (some []) []
      = (some (.wrap ("could not insert documents into collection \"customer\": "
            ++ "must provide at least one element in input slice")
          (.new "must provide at least one element in input slice")),
        [Call.insert "customer" []]) ∧
    ({ conn := (), cleanUps := [] } : Database Unit).store (recDriver fun _ => false) flatLib
        "customer" (some [[("a", "1")], [("a", "2")]]) []
      = (none, [Call.insert "customer" [[("a", "1")], [("a", "2")]]]) :=
  have h := store_passThrough (recDriver fun _ => false) flatLib
    ({ conn := (), cleanUps := [] } : Database Unit) "customer" []
    [Call.insert "customer" []] rfl
  ⟨h.2.1 (some []) rfl, (h.1 (some [[("a", "1")], [("a", "2")]])).trans (by decide)⟩

/-! ## Clean-up after a scenario -/

/-- A loop that runs the steps in order and stops at the first error returns no
error exactly after a run in which every step succeeded, and otherwise the
error of the first failing step with the state that step left. -/
theorem firstError_loop {α σ : Type} (step : α → σ → Option GoError × σ)
    (loop : List α → σ → Option GoError × σ) (hnil : ∀ s, loop [] s = (none, s))
    (hcons : ∀ a rest s, loop (a :: rest) s
      = match step a s with
        | (some err, s1) => (some err, s1)
        | (none, s1) => loop rest s1) :
    ∀ (l : List α) (s : σ),
      (∀ s2, loop l s = (none, s2) ↔ AllOk step l s s2) ∧
      (∀ e s2, loop l s = (some e, s2) ↔
        ∃ pre a post s1, l = pre ++ a :: post ∧ AllOk step pre s s1 ∧
          step a s1 = (some e, s2)) := by
  intro l
  induction l with
  | nil =>
    intro s
    constructor
    · intro s2
      rw [hnil]
      constructor
      · intro h
        injection h with _ h2
        subst h2
        exact AllOk.nil s
      · intro h
        cases h
        rfl
    · intro e s2
      rw [hnil]
      constructor
      · intro h
        injection h with h1 _
        cases h1
      · rintro ⟨pre, a, post, s1, hl, _, _⟩
        cases pre <;> cases hl
  | cons a rest ih =>
    intro s
    rw [hcons]
    cases hstep : step a s with
    | mk r s1 =>
      cases r with
      | some err =>
        constructor
        · intro s2
          constructor
          · intro h
            injection h with h1 _
            cases h1
          · intro h
            cases h with
            | cons _ _ _ s1' _ hs _ =>
              rw [hstep] at hs
              injection hs with h1 _
              cases h1
        · intro e s2
          constructor
          · intro h
            injection h with h1 h2
            injection h1 with h1
            subst h1
            subst h2
            exact ⟨[], a, rest, s, rfl, AllOk.nil s, hstep⟩
          · rintro ⟨pre, b, post, s1', hl, hpre, hb⟩
            cases pre with
            | nil =>
              injection hl with h1 h2
              subst h1
              cases hpre
              rw [hstep] at hb
              exact hb
            | cons x pre =>
              injection hl with h1 h2
              subst h1
              cases hpre with
              | cons _ _ _ s1'' _ hs _ =>
                rw [hstep] at hs
                injection hs with h1 _
                cases h1
      | none =>
        constructor
        · intro s2
          constructor
          · intro h
            exact AllOk.cons a rest s s1 s2 hstep (((ih s1).1 s2).1 h)
          · intro h
            cases h with
            | cons _ _ _ s1' _ hs hrest =>
              rw [hstep] at hs
              injection hs with _ h2
              subst h2
              exact ((ih s1).1 s2).2 hrest
        · intro e s2
          constructor
          · intro h
            obtain ⟨pre, b, post, s1', hl, hpre, hb⟩ := ((ih s1).2 e s2).1 h
            exact ⟨a :: pre, b, post, s1', by rw [hl]; rfl,
              AllOk.cons a pre s s1 s1' hstep hpre, hb⟩
          · rintro ⟨pre, b, post, s1', hl, hpre, hb⟩
            cases pre with
            | nil =>
              injection hl with h1 h2
              subst h1
              cases hpre
              rw [hstep] at hb
              injection hb with h1 _
              cases h1
            | cons x pre =>
              injection hl with h1 h2
              subst h1
              cases hpre with
              | cons _ _ _ s1'' _ hs hrest =>
                rw [hstep] at hs
                injection hs with _ h3
                subst h3
                exact ((ih s1).2 e s2).2 ⟨pre, b, post, s1', h2, hrest, hb⟩

section CleanUp

variable {σ Conn Cur Doc V : Type}

/-- The clean-up collections of a database built from `CleanUpAfterScenario`
options are the collections of the options, in the order of registration. -/
theorem cleanUps_registered (conn : Conn) (colls : List (List String)) :
    (newDatabase conn (colls.map CleanUpAfterScenario)).cleanUps = colls.flatten := by
  have h : ∀ (colls : List (List String)) (d : Database Conn),
      ((colls.map CleanUpAfterScenario).foldl (fun d opt => opt d) d).cleanUps
        = d.cleanUps ++ colls.flatten := by
    intro colls
    induction colls with
    | nil => intro d; simp
    | cons x rest ih =>
      intro d
      simp only [List.map_cons, List.foldl_cons, List.flatten_cons]
      rw [ih]
      simp [CleanUpAfterScenario, List.append_assoc]
  unfold newDatabase
  rw [h]
  rfl

/-- C17. `cleanUp` truncates the clean-up collections, which are the ones given
to `CleanUpAfterScenario` in the order of registration, one after the other: it
returns no error exactly after a run in which every truncate succeeded, and
otherwise the error of the first failing truncate as it is. The after-scenario
hook does not depend on the scenario's error; it cleans up the databases one
after the other, returns the given context, and returns no error exactly when
every clean-up succeeded, otherwise the error of the first failing one. -/
theorem cleanUp_first_error (drv : Driver σ Conn Cur Doc V) (lib : Lib Doc V) (s : σ) :
    (∀ (conn : Conn) (colls : List (List String)),
      (newDatabase conn (colls.map CleanUpAfterScenario)).cleanUps = colls.flatten) ∧
    (∀ (d : Database Conn) (s2 : σ),
      d.cleanUp drv lib s = (none, s2) ↔ AllOk (d.truncate drv lib) d.cleanUps s s2) ∧
    (∀ (d : Database Conn) (e : GoError) (s2 : σ),
      d.cleanUp drv lib s = (some e, s2) ↔
        ∃ pre c post s1, d.cleanUps = pre ++ c :: post ∧
          AllOk (d.truncate drv lib) pre s s1 ∧ d.truncate drv lib c s1 = (some e, s2)) ∧
    (∀ (m : Manager Conn) (ctx : Context Doc) (err1 err2 : Option GoError),
      m.afterScenario drv lib ctx err1 s = m.afterScenario drv lib ctx err2 s) ∧
    (∀ (m : Manager Conn) (ctx : Context Doc) (err : Option GoError) (s2 : σ),
      m.afterScenario drv lib ctx err s = ((ctx, none), s2) ↔
        AllOk (fun entry => entry.2.cleanUp drv lib) (mapEntries m.databases) s s2) ∧
    (∀ (m : Manager Conn) (ctx : Context Doc) (err : Option GoError) (e : GoError) (s2 : σ),
      m.afterScenario drv lib ctx err s = ((ctx, some e), s2) ↔
        ∃ pre entry post s1, mapEntries m.databases = pre ++ entry :: post ∧
          AllOk (fun entry => entry.2.cleanUp drv lib) pre s s1 ∧
          entry.2.cleanUp drv lib s1 = (some e, s2)) := by
  have hclean := fun d : Database Conn =>
    firstError_loop (d.truncate drv lib) (cleanUpLoop drv lib d) (fun _ => rfl)
      (fun _ _ _ => rfl) d.cleanUps s
  have hafter := fun m : Manager Conn =>
    firstError_loop (fun entry : String × Database Conn => entry.2.cleanUp drv lib)
      (afterLoop drv lib) (fun _ => rfl) (fun _ _ _ => rfl) (mapEntries m.databases) s
  have hshape : ∀ (m : Manager Conn) (ctx : Context Doc) (err r : Option GoError) (s2 : σ),
      m.afterScenario drv lib ctx err s = ((ctx, r), s2)
        ↔ afterLoop drv lib (mapEntries m.databases) s = (r, s2) := by
    intro m ctx err r s2
    unfold Manager.afterScenario
    cases afterLoop drv lib (mapEntries m.databases) s with
    | mk r1 s3 =>
      constructor
      · intro h
        injection h with h1 h2
        injection h1 with _ h1
        rw [h1, h2]
      · intro h
        injection h with h1 h2
        rw [h1, h2]
  refine ⟨cleanUps_registered, fun d s2 => (hclean d).1 s2, fun d e s2 => (hclean d).2 e s2,
    fun _ _ _ _ => rfl, ?_, ?_⟩
  · intro m ctx err s2
    exact (hshape m ctx err none s2).trans ((hafter m).1 s2)
  · intro m ctx err e s2
    exact (hshape m ctx err (some e) s2).trans ((hafter m).2 e s2)

end CleanUp

/-- C17 on the recording driver with the collection `b` failing: `a` and `b`
are truncated in this order, `c` is not, and the error is the one of `b`; the
hook returns the same error whatever the scenario's error. -/
theorem cleanUp_first_error_witness :
    abcDatabase.cleanUps = ["a", "b", "c"] ∧
    abcDatabase.cleanUp (recDriver fun c => c == "b") flatLib []
      = (some (.wrap "could not truncate collection \"b\": command failed"
          (.new "command failed")), [Call.delete "a", Call.delete "b"]) ∧
    abcDatabase.cleanUp (recDriver fun _ => false) flatLib []
      = (none, [Call.delete "a", Call.delete "b", Call.delete "c"]) ∧
    (⟨[("default", abcDatabase)]⟩ : Manager Unit).afterScenario (recDriver fun c => c == "b")
        flatLib (Context.background : Context FlatDoc) none []
      = (⟨[("default", abcDatabase)]⟩ : Manager Unit).afterScenario
          (recDriver fun c => c == "b") flatLib (Context.background : Context FlatDoc)
          (some (.new "step failed")) [] ∧
    (⟨[("default", abcDatabase)]⟩ : Manager Unit).afterScenario (recDriver fun c => c == "b")
        flatLib (Context.background : Context FlatDoc) (some (.new "step failed")) []
      = ((.background, some (.wrap "could not truncate collection \"b\": command failed"
          (.new "command failed"))), [Call.delete "a", Call.delete "b"]) :=
  have h := @cleanUp_first_error (List Call) Unit Unit FlatDoc String
    (recDriver fun c => c == "b") flatLib []
  ⟨h.1 () [["a"], ["b", "c"]],
    (h.2.2.1 abcDatabase _ _).2 ⟨["a"], "b", ["c"], [Call.delete "a"], rfl,
      AllOk.cons "a" [] [] _ _ rfl (AllOk.nil _), rfl⟩,
    by decide,
    h.2.2.2.1 ⟨[("default", abcDatabase)]⟩ .background none (some (.new "step failed")),
    (h.2.2.2.2.2 ⟨[("default", abcDatabase)]⟩ .background (some (.new "step failed")) _ _).2
      ⟨[], ("default", abcDatabase), [], [], rfl, AllOk.nil _, by decide⟩⟩

/-! ## The default database and the contexts the steps return -/

/-- Dropping the entries of another name does not change what a name maps to. -/
theorem lookup_filter_other {β : Type} (name k : String) (hne : name ≠ k) :
    ∀ entries : List (String × β),
      (entries.filter (fun e => e.1 != k)).lookup name = entries.lookup name := by
  intro entries
  induction entries with
  | nil => rfl
  | cons e rest ih =>
    obtain ⟨k1, v1⟩ := e
    by_cases hk : k1 = k
    · subst hk
      have hnk : (name == k1) = false := beq_false_of_ne hne
      simp only [List.filter, bne_self_eq_false, List.lookup, hnk]
      exact ih
    · have hb : (k1 != k) = true := bne_iff_ne.2 hk
      simp only [List.filter, hb, List.lookup]
      rw [ih]

section Steps

variable {σ Conn Cur Doc V : Type}

/-- C18. Each step registered without a database name returns what the
method of the same purpose returns for the database name `default`: with the
nil doc string for the search without a query, and with the count put in front
of the collection for the `collection "<c>" should have <N> documents` step.
`WithDefaultDatabase` puts its database under the key `default` and leaves
every other key as it was. -/
theorem defaultSteps (drv : Driver σ Conn Cur Doc V) (lib : Lib Doc V) (m : Manager Conn)
    (ctx : Context Doc) (c filePath : String) (data : Option DocString) (count : Int) (s : σ) :
    defaultDatabase = "default" ∧
    m.stepNoDocuments drv lib ctx c s
      = m.noDocumentsInCollectionOfDatabase drv lib ctx c "default" s ∧
    m.stepTheseDocumentsAreStored drv lib ctx c data s
      = m.theseDocumentsAreStoredInCollectionOfDatabase drv lib ctx c "default" data s ∧
    m.stepDocumentsFromFileAreStored drv lib ctx filePath c s
      = m.theseDocumentsFromFileAreStoredInCollectionOfDatabase drv lib ctx filePath c
          "default" s ∧
    m.stepSearch drv lib ctx c s
      = m.searchInCollectionOfDatabase drv lib ctx c "default" none s ∧
    m.stepSearchWithQuery drv lib ctx c data s
      = m.searchInCollectionOfDatabase drv lib ctx c "default" data s ∧
    m.stepNoDocumentsAreAvailable drv lib ctx c s
      = m.noDocumentsAreAvailableInCollectionOfDatabase drv lib ctx c "default" s ∧
    m.stepThereAreDocuments drv lib ctx count c s
      = m.haveNumberOfDocumentsAvailableInCollectionOfDatabase drv lib ctx count c
          "default" s ∧
    m.stepCollectionShouldHave drv lib ctx c count s
      = m.haveNumberOfDocumentsAvailableInCollectionOfDatabase drv lib ctx count c
          "default" s ∧
    m.stepThereAreOnlyTheseDocuments drv lib ctx c data s
      = m.haveOnlyTheseDocumentsAvailableInCollectionOfDatabase drv lib ctx c "default"
          data s ∧
    m.stepCollectionShouldHaveOnlyThese drv lib ctx c data s
      = m.haveOnlyTheseDocumentsAvailableInCollectionOfDatabase drv lib ctx c "default"
          data s ∧
    m.stepThereAreOnlyTheseDocumentsFromFile drv lib ctx filePath c s
      = m.haveOnlyTheseDocumentsFromFileAvailableInCollectionOfDatabase drv lib ctx filePath c
          "default" s ∧
    (∀ (conn : Conn) (opts : List (Database Conn → Database Conn)),
      (WithDefaultDatabase conn opts m).getDatabase lib "default"
        = .ok (newDatabase conn opts)) ∧
    (∀ (conn : Conn) (opts : List (Database Conn → Database Conn)) (name : String),
      name ≠ "default" →
      (WithDefaultDatabase conn opts m).getDatabase lib name = m.getDatabase lib name) ∧
    (∀ (conn : Conn) (opts : List (Database Conn → Database Conn)),
      (NewManager [WithDefaultDatabase conn opts]).databases
        = [("default", newDatabase conn opts)]) := by
  refine ⟨rfl, rfl, rfl, rfl, rfl, rfl, rfl, rfl, rfl, rfl, rfl, rfl, ?_, ?_, fun _ _ => rfl⟩
  · intro conn opts
    simp [WithDefaultDatabase, Manager.getDatabase, mapSet, defaultDatabase, List.lookup]
  · intro conn opts name hne
    have hb : (name == "default") = false := beq_false_of_ne hne
    simp only [WithDefaultDatabase, Manager.getDatabase, mapSet, defaultDatabase, List.lookup,
      hb]
    rw [lookup_filter_other name "default" hne]

/-- A context extended with a value is not the context it extends. -/
theorem withValue_ne (ctx : Context Doc) :
    ∀ (k : CtxKey) (v : CtxValue Doc), Context.withValue ctx k v ≠ ctx := by
  induction ctx with
  | background => intro k v h; cases h
  | withValue parent k0 v0 ih =>
    intro k v h
    injection h with h1 _ _
    exact ih k0 v0 h1

/-- C20. Every step method returns the context it was given, except the search
when it succeeds: a search that returns an error returns the given context, and
a search that returns no error returns the given context extended with a search
result, which is a different context. -/
theorem context_unchanged (drv : Driver σ Conn Cur Doc V) (lib : Lib Doc V) (m : Manager Conn)
    (ctx : Context Doc) (c dbName filePath : String) (data : Option DocString)
    (expected : Int) (s : σ) :
    (m.noDocumentsInCollectionOfDatabase drv lib ctx c dbName s).1.1 = ctx ∧
    (m.theseDocumentsAreStoredInCollectionOfDatabase drv lib ctx c dbName data s).1.1 = ctx ∧
    (m.theseDocumentsFromFileAreStoredInCollectionOfDatabase drv lib ctx filePath c dbName
      s).1.1 = ctx ∧
    (m.noDocumentsAreAvailableInCollectionOfDatabase drv lib ctx c dbName s).1.1 = ctx ∧
    (m.haveNumberOfDocumentsAvailableInCollectionOfDatabase drv lib ctx expected c dbName
      s).1.1 = ctx ∧
    (m.haveOnlyTheseDocumentsAvailableInCollectionOfDatabase drv lib ctx c dbName data
      s).1.1 = ctx ∧
    (m.haveOnlyTheseDocumentsFromFileAvailableInCollectionOfDatabase drv lib ctx filePath c
      dbName s).1.1 = ctx ∧
    (m.haveNumberOfDocumentsInSearchResult ctx expected).1 = ctx ∧
    (m.haveDocumentsInSearchResult lib ctx data).1 = ctx ∧
    ((m.searchInCollectionOfDatabase drv lib ctx c dbName data s).1.2 ≠ none →
      (m.searchInCollectionOfDatabase drv lib ctx c dbName data s).1.1 = ctx) ∧
    ((m.searchInCollectionOfDatabase drv lib ctx c dbName data s).1.2 = none →
      ∃ result, (m.searchInCollectionOfDatabase drv lib ctx c dbName data s).1.1
          = contextWithDocs ctx result ∧
        (m.searchInCollectionOfDatabase drv lib ctx c dbName data s).1.1 ≠ ctx) := by
  have hOnly : ∀ data : Option DocString,
      (m.haveOnlyTheseDocumentsAvailableInCollectionOfDatabase drv lib ctx c dbName data
        s).1.1 = ctx := by
    intro data
    unfold Manager.haveOnlyTheseDocumentsAvailableInCollectionOfDatabase
    repeat' split
    all_goals rfl
  refine ⟨?_, ?_, ?_, ?_, ?_, hOnly data, ?_, ?_, ?_, ?_, ?_⟩
  · unfold Manager.noDocumentsInCollectionOfDatabase
    repeat' split
    all_goals rfl
  · unfold Manager.theseDocumentsAreStoredInCollectionOfDatabase
    repeat' split
    all_goals rfl
  · unfold Manager.theseDocumentsFromFileAreStoredInCollectionOfDatabase
    repeat' split
    all_goals rfl
  · unfold Manager.noDocumentsAreAvailableInCollectionOfDatabase
    repeat' split
    all_goals rfl
  · unfold Manager.haveNumberOfDocumentsAvailableInCollectionOfDatabase
    repeat' split
    all_goals rfl
  · unfold Manager.haveOnlyTheseDocumentsFromFileAvailableInCollectionOfDatabase
    split
    · rfl
    · exact hOnly _
  · unfold Manager.haveNumberOfDocumentsInSearchResult
    repeat' split
    all_goals rfl
  · unfold Manager.haveDocumentsInSearchResult
    repeat' split
    all_goals rfl
  · unfold Manager.searchInCollectionOfDatabase
    repeat' split
    all_goals first | (intro _; rfl) | (intro h; exact absurd rfl h)
  · unfold Manager.searchInCollectionOfDatabase
    repeat' split
    all_goals first
      | (intro _; exact ⟨_, rfl, withValue_ne ctx _ _⟩)
      | (intro h; cases h)

end Steps

/-- C20 on the two customers: the truncate step returns its context, the
search returns the context extended with the customers. -/
theorem context_unchanged_witness :
    (memManager.noDocumentsInCollectionOfDatabase memDriver flatLib
        (Context.background : Context FlatDoc) "customer" "default" twoCustomers).1.1
      = .background ∧
    (memManager.searchInCollectionOfDatabase memDriver flatLib
        (Context.background : Context FlatDoc) "customer" "other" none twoCustomers).1
      = (.background,
          some (.new "mongo database \"other\" is not registered to the manager")) ∧
    ∃ result, (memManager.searchInCollectionOfDatabase memDriver flatLib
        (Context.background : Context FlatDoc) "customer" "default" none twoCustomers).1.1
          = contextWithDocs .background result ∧
      (memManager.searchInCollectionOfDatabase memDriver flatLib
        (Context.background : Context FlatDoc) "customer" "default" none twoCustomers).1.1
          ≠ .background :=
  have h := context_unchanged memDriver flatLib memManager
    (Context.background : Context FlatDoc) "customer" "default" "" none 0 twoCustomers
  ⟨h.1, by decide, h.2.2.2.2.2.2.2.2.2.2 (by decide)⟩

/-- C18 on the two customers: the count step without a database name counts in
the default database. -/
theorem defaultSteps_witness :
    memManager.stepCollectionShouldHave memDriver flatLib
        (Context.background : Context FlatDoc) "customer" 2 twoCustomers
      = ((.background, none), twoCustomers) ∧
    (NewManager [WithDefaultDatabase () []] : Manager Unit).databases
      = [("default", newDatabase () [])] :=
  have h := defaultSteps memDriver flatLib memManager (Context.background : Context FlatDoc)
    "customer" "" none 2 twoCustomers
  ⟨h.2.2.2.2.2.2.2.2.1.trans (by decide), h.2.2.2.2.2.2.2.2.2.2.2.2.2.2 () []⟩

/-! ## The order of the checks in the file steps, and empty search results -/

section FileSteps

variable {σ Conn Cur Doc V : Type}

/-- C21. With a database name that is not registered, seeding from a file fails
with the not-registered error for every file path, whether the file can be read
or not: the registration is checked first. The assertion from a file reads the
file first: when the file cannot be read it returns the read error, for every
manager and database name, and with the unregistered name it returns the
not-registered error when the file was read. -/
theorem fileSteps_order (drv : Driver σ Conn Cur Doc V) (lib : Lib Doc V) (m : Manager Conn)
    (ctx : Context Doc) (c dbName : String) (s : σ)
    (hunreg : dbName ∉ m.databases.map Prod.fst) :
    (∀ filePath : String,
      m.theseDocumentsFromFileAreStoredInCollectionOfDatabase drv lib ctx filePath c dbName s
        = ((ctx, some (.new ("mongo database " ++ quote lib.isPrint dbName
            ++ " is not registered to the manager"))), s)) ∧
    (∀ (m1 : Manager Conn) (name filePath : String) (e : GoError),
      lib.readFile filePath = .error e →
      m1.haveOnlyTheseDocumentsFromFileAvailableInCollectionOfDatabase drv lib ctx filePath c
        name s = ((ctx, some e), s)) ∧
    (∀ (filePath : String) (data : List Char), lib.readFile filePath = .ok data →
      m.haveOnlyTheseDocumentsFromFileAvailableInCollectionOfDatabase drv lib ctx filePath c
        dbName s
        = ((ctx, some (.new ("mongo database " ++ quote lib.isPrint dbName
            ++ " is not registered to the manager"))), s)) := by
  have hnone : m.databases.lookup dbName = none := by
    rw [List.lookup_eq_none_iff]
    intro p hp
    rw [bne_iff_ne]
    exact fun hnp => hunreg (List.mem_map.2 ⟨p, hp, hnp.symm⟩)
  have hget : m.getDatabase lib dbName
      = .error (.new ("mongo database " ++ quote lib.isPrint dbName
          ++ " is not registered to the manager")) := by
    unfold Manager.getDatabase
    rw [hnone]
  refine ⟨?_, ?_, ?_⟩
  · intro filePath
    unfold Manager.theseDocumentsFromFileAreStoredInCollectionOfDatabase
    rw [hget]
  · intro m1 name filePath e hread
    unfold Manager.haveOnlyTheseDocumentsFromFileAvailableInCollectionOfDatabase
    rw [hread]
  · intro filePath data hread
    unfold Manager.haveOnlyTheseDocumentsFromFileAvailableInCollectionOfDatabase
    rw [hread]
    unfold Manager.haveOnlyTheseDocumentsAvailableInCollectionOfDatabase
    rw [hget]

/-- C22. A `find` that succeeds returns a non-nil list, the empty non-nil list
when the driver yields no documents. So on a registered database and with a
filter that parses, every search whose `find` succeeds returns a context whose
search result is non-nil, and when nothing matched the assertion that the
result has 0 documents returns a nil error on that context. -/
theorem search_nonNil (drv : Driver σ Conn Cur Doc V) (lib : Lib Doc V) (m : Manager Conn)
    (ctx : Context Doc) (c dbName : String) (data : Option DocString) (s : σ)
    (db : Database Conn) (filter : BsonD V)
    (hdb : m.getDatabase lib dbName = .ok db) (hfilter : stringToBSOND lib data = .ok filter) :
    (∀ (opts : FindOptions) (cursor : Cur) (s1 s2 : σ) (result : Option (List Doc)),
      drv.find db.conn c filter opts s = (.ok cursor, s1) →
      drv.cursorAll cursor s1 = (.ok result, s2) →
      db.find drv lib c filter opts s
        = (.ok (some (result.getD [])), drv.cursorClose cursor s2)) ∧
    (∀ (result : Option (List Doc)) (s1 : σ),
      db.find drv lib c filter sortedById s = (.ok result, s1) →
      ∃ docs, result = some docs ∧
        m.searchInCollectionOfDatabase drv lib ctx c dbName data s
          = ((contextWithDocs ctx (some docs), none), s1) ∧
        docsFromContext (contextWithDocs ctx (some docs)) = some docs ∧
        (docs = [] →
          m.haveNumberOfDocumentsInSearchResult (contextWithDocs ctx (some docs)) 0
            = (contextWithDocs ctx (some docs), none))) := by
  constructor
  · intro opts cursor s1 s2 result h1 h2
    simp only [Database.find, h1, h2]
    by_cases hlen : (result.getD []).length = 0
    · rw [if_pos hlen, List.length_eq_zero.1 hlen]
    · rw [if_neg hlen]
      cases result with
      | none => exact absurd rfl hlen
      | some l => rfl
  · intro result s1 hfind
    obtain ⟨docs, hdocs⟩ := find_ok_some drv lib db c filter sortedById s s1 result hfind
    subst hdocs
    refine ⟨docs, rfl, ?_, rfl, ?_⟩
    · unfold Manager.searchInCollectionOfDatabase
      rw [hdb]
      simp only [hfilter, hfind]
    · intro hnil
      subst hnil
      rfl

end FileSteps

/-- C21 with the database `other`, a missing file and the readable file
`customers.json`. -/
theorem fileSteps_order_witness :
    memManager.theseDocumentsFromFileAreStoredInCollectionOfDatabase memDriver
        (flatLibWithFile "customers.json" customersPayload)
        (Context.background : Context FlatDoc) "missing.json" "customer" "other" twoCustomers
      = ((.background,
          some (.new "mongo database \"other\" is not registered to the manager")),
        twoCustomers) ∧
    memManager.theseDocumentsFromFileAreStoredInCollectionOfDatabase memDriver
        (flatLibWithFile "customers.json" customersPayload)
        (Context.background : Context FlatDoc) "customers.json" "customer" "other"
        twoCustomers
      = ((.background,
          some (.new "mongo database \"other\" is not registered to the manager")),
        twoCustomers) ∧
    memManager.haveOnlyTheseDocumentsFromFileAvailableInCollectionOfDatabase memDriver
        (flatLibWithFile "customers.json" customersPayload)
        (Context.background : Context FlatDoc) "missing.json" "customer" "other" twoCustomers
      = ((.background, some (.new "open missing.json: no such file or directory")),
        twoCustomers) ∧
    memManager.haveOnlyTheseDocumentsFromFileAvailableInCollectionOfDatabase memDriver
        (flatLibWithFile "customers.json" customersPayload)
        (Context.background : Context FlatDoc) "customers.json" "customer" "other"
        twoCustomers
      = ((.background,
          some (.new "mongo database \"other\" is not registered to the manager")),
        twoCustomers) :=
  have h := fileSteps_order memDriver (flatLibWithFile "customers.json" customersPayload)
    memManager (Context.background : Context FlatDoc) "customer" "other" twoCustomers
    (by decide)
  ⟨h.1 "missing.json", h.1 "customers.json",
    h.2.1 memManager "other" "missing.json" _ (by decide),
    h.2.2 "customers.json" customersPayload (by decide)⟩

/-- C22 on the recording driver, whose cursor yields the nil list: the search
stores the empty non-nil list, and the assertion on 0 documents passes. -/
theorem search_nonNil_witness :
    memManager.searchInCollectionOfDatabase (recDriver fun _ => false) flatLib
        (Context.background : Context FlatDoc) "customer" "default" none []
      = ((contextWithDocs .background (some []), none),
          [Call.find "customer", Call.readAll, Call.close]) ∧
    docsFromContext (contextWithDocs (Context.background : Context FlatDoc) (some []))
      = some [] ∧
    memManager.haveNumberOfDocumentsInSearchResult
        (contextWithDocs (Context.background : Context FlatDoc) (some [])) 0
      = (contextWithDocs .background (some []), none) :=
  have h := (search_nonNil (recDriver fun _ => false) flatLib memManager
    (Context.background : Context FlatDoc) "customer" "default" none []
    { conn := (), cleanUps := [] } [] rfl rfl).2 (some [])
    [Call.find "customer", Call.readAll, Call.close] (by decide)
  match h with
  | ⟨docs, hdocs, hsearch, hctx, hzero⟩ => by
    injection hdocs with hdocs
    subst hdocs
    exact ⟨hsearch, hctx, hzero rfl⟩

/-! ## The flat codec reads its own encoding back -/

theorem joinWith_cons_flatMap (sep x : List Char) (xs : List (List Char)) :
    joinWith sep (x :: xs) = x ++ xs.flatMap (fun y => sep ++ y) := by
  induction xs generalizing x with
  | nil => simp [joinWith]
  | cons y rest ih =>
    rw [joinWith_cons_cons, ih y]
    simp [List.flatMap_cons, List.append_assoc]

/-- The compaction of the characters of a quoted string, up to its closing
quote. -/
theorem flatCompactAux_chars (s rest : List Char) :
    flatCompactAux true false
        (s.flatMap (fun c => if c = '"' ∨ c = '\\' then ['\\', c] else [c]) ++ '"' :: rest)
      = s.flatMap encChar ++ '"' :: flatCompactAux false false rest := by
  induction s with
  | nil => rfl
  | cons c s ih =>
    simp only [List.flatMap_cons, List.append_assoc]
    by_cases h : c = '"' ∨ c = '\\'
    · rw [if_pos h]
      rcases h with h | h
      · subst h
        exact congrArg (fun t => '\\' :: '"' :: t) ih
      · subst h
        exact congrArg (fun t => '\\' :: '\\' :: t) ih
    · rw [if_neg h]
      have h1 : c ≠ '"' := fun hc => h (Or.inl hc)
      have h2 : c ≠ '\\' := fun hc => h (Or.inr hc)
      simp only [List.singleton_append, flatCompactAux, encChar, if_neg h, Bool.not_true,
        Bool.false_and, Bool.false_eq_true, if_false, if_true, bne_iff_ne, ne_eq, h1,
        not_false_eq_true, decide_True, beq_iff_eq, h2, decide_False, Bool.and_false,
        Bool.true_and]
      have hb1 : (c != '"') = true := bne_iff_ne.2 h1
      have hb2 : (c == '\\') = false := beq_false_of_ne h2
      rw [hb1, hb2]
      simp [ih]

/-- The compaction of a quoted string outside a string. -/
theorem flatCompactAux_quoted (s : String) (rest : List Char) :
    flatCompactAux false false (flatQuote s ++ rest)
      = encQuoted s ++ flatCompactAux false false rest := by
  unfold flatQuote encQuoted
  have h := flatCompactAux_chars s.toList rest
  simp only [List.cons_append, List.append_assoc, List.singleton_append]
  exact congrArg (fun t => '"' :: t) h

/-- The compaction of a field, whose blank behind the colon is dropped. -/
theorem flatCompactAux_field (kv : String × String) (rest : List Char) :
    flatCompactAux false false ((flatQuote kv.1 ++ [':', ' '] ++ flatQuote kv.2) ++ rest)
      = encField kv ++ flatCompactAux false false rest := by
  unfold encField
  rw [List.append_assoc, List.append_assoc, flatCompactAux_quoted]
  have h : flatCompactAux false false ([':', ' '] ++ (flatQuote kv.2 ++ rest))
      = ':' :: flatCompactAux false false (flatQuote kv.2 ++ rest) := rfl
  rw [h, flatCompactAux_quoted, List.append_assoc]
  rfl

/-- The compaction of the fields behind the first one. -/
theorem flatCompactAux_fields (rest : List Char) :
    ∀ d : FlatDoc,
      flatCompactAux false false
          ((d.map fun kv => flatQuote kv.1 ++ [':', ' '] ++ flatQuote kv.2).flatMap
            (fun y => [','] ++ y) ++ rest)
        = d.flatMap (fun x => ',' :: encField x) ++ flatCompactAux false false rest := by
  intro d
  induction d with
  | nil => rfl
  | cons kv d ih =>
    simp only [List.map_cons, List.flatMap_cons, List.append_assoc, List.singleton_append,
      List.cons_append, List.nil_append]
    have h : ∀ t, flatCompactAux false false (',' :: t) = ',' :: flatCompactAux false false t :=
      fun _ => rfl
    rw [h]
    have hf := flatCompactAux_field kv
      ((d.map fun kv => flatQuote kv.1 ++ [':', ' '] ++ flatQuote kv.2).flatMap
        (fun y => [','] ++ y) ++ rest)
    simp only [List.append_assoc, List.singleton_append, List.cons_append,
      List.nil_append] at hf ih
    rw [hf, ih]

/-- The compaction of the text of a flat document is its encoding. -/
theorem flatCompactAux_docString (d : FlatDoc) :
    flatCompactAux false false (flatDocString d) = encDoc d := by
  unfold flatDocString encDoc
  have hopen : ∀ t, flatCompactAux false false ('{' :: t) = '{' :: flatCompactAux false false t :=
    fun _ => rfl
  have hclose : flatCompactAux false false ['}'] = ['}'] := rfl
  rw [hopen]
  cases d with
  | nil => rfl
  | cons kv d =>
    rw [List.map_cons, joinWith_cons_flatMap, List.append_assoc]
    have hf := flatCompactAux_field kv
      ((d.map fun kv => flatQuote kv.1 ++ [':', ' '] ++ flatQuote kv.2).flatMap
        (fun y => [','] ++ y) ++ ['}'])
    rw [hf, flatCompactAux_fields, hclose]
    simp only [encFields, List.append_assoc]

/-- The lexer reads the encoding of a character back as the character. -/
theorem lexAux_encChar (c : Char) (acc rest : List Char) :
    lexAux (.str acc) (encChar c ++ rest) = lexAux (.str (c :: acc)) rest := by
  unfold encChar
  by_cases h : c = '"' ∨ c = '\\'
  · rw [if_pos h]
    rcases h with h | h <;> subst h <;> rfl
  · rw [if_neg h]
    have h1 : c ≠ '"' := fun hc => h (Or.inl hc)
    have h2 : c ≠ '\\' := fun hc => h (Or.inr hc)
    by_cases h3 : c = '<'
    · subst h3
      rfl
    · rw [if_neg h3]
      by_cases h4 : c = '>'
      · subst h4
        rfl
      · rw [if_neg h4]
        by_cases h5 : c = '&'
        · subst h5
          rfl
        · rw [if_neg h5]
          by_cases h6 : c.toNat = 0x2028
          · rw [if_pos h6]
            have hc : c = Char.ofNat 0x2028 := by rw [← h6, Char.ofNat_toNat]
            subst hc
            rfl
          · rw [if_neg h6]
            by_cases h7 : c.toNat = 0x2029
            · rw [if_pos h7]
              have hc : c = Char.ofNat 0x2029 := by rw [← h7, Char.ofNat_toNat]
              subst hc
              rfl
            · rw [if_neg h7]
              simp only [List.singleton_append, lexAux, if_neg h1, if_neg h2]
              rfl

/-- The lexer reads the encoded characters of a string back. -/
theorem lexAux_chars (rest : List Char) :
    ∀ (s acc : List Char),
      lexAux (.str acc) (s.flatMap encChar ++ rest) = lexAux (.str (s.reverse ++ acc)) rest := by
  intro s
  induction s with
  | nil => intro acc; rfl
  | cons c s ih =>
    intro acc
    rw [List.flatMap_cons, List.append_assoc, lexAux_encChar, ih]
    simp

/-- The lexer reads an encoded string as one string token. -/
theorem lexAux_quoted (s : String) (rest : List Char) (toks : List Tok)
    (h : lexAux .out rest = some toks) :
    lexAux .out (encQuoted s ++ rest) = some (Tok.str s :: toks) := by
  unfold encQuoted
  have h1 : lexAux .out (('"' :: (s.toList.flatMap encChar ++ ['"'])) ++ rest)
      = lexAux (.str []) (s.toList.flatMap encChar ++ '"' :: rest) := by
    simp only [List.cons_append, List.append_assoc, List.singleton_append]
    rfl
  rw [h1, lexAux_chars]
  have h2 : lexAux (.str (s.toList.reverse ++ [])) ('"' :: rest)
      = (lexAux .out rest).map (Tok.str (String.mk (s.toList.reverse ++ []).reverse) :: ·) :=
    rfl
  rw [h2, h]
  simp

/-- The lexer reads an encoded field as its three tokens. -/
theorem lexAux_field (kv : String × String) (rest : List Char) (toks : List Tok)
    (h : lexAux .out rest = some toks) :
    lexAux .out (encField kv ++ rest) = some (fieldToks kv ++ toks) := by
  unfold encField fieldToks
  rw [List.append_assoc]
  apply lexAux_quoted
  have hcolon : ∀ t, lexAux .out (':' :: t) = (lexAux .out t).map (Tok.colon :: ·) :=
    fun _ => rfl
  rw [List.cons_append, hcolon, lexAux_quoted kv.2 rest toks h]
  rfl

/-- The lexer reads the encoded fields behind the first one. -/
theorem lexAux_fields (rest : List Char) (toks : List Tok) (h : lexAux .out rest = some toks) :
    ∀ d : FlatDoc,
      lexAux .out (d.flatMap (fun x => ',' :: encField x) ++ rest)
        = some (d.flatMap (fun x => Tok.comma :: fieldToks x) ++ toks) := by
  intro d
  induction d with
  | nil => exact h
  | cons kv d ih =>
    simp only [List.flatMap_cons, List.cons_append, List.append_assoc]
    have hcomma : ∀ t, lexAux .out (',' :: t) = (lexAux .out t).map (Tok.comma :: ·) :=
      fun _ => rfl
    rw [hcomma, lexAux_field kv _ _ ih]
    rfl

/-- The lexer reads an encoded document as its tokens. -/
theorem lexAux_doc (d : FlatDoc) (rest : List Char) (toks : List Tok)
    (h : lexAux .out rest = some toks) :
    lexAux .out (encDoc d ++ rest) = some (docToks d ++ toks) := by
  unfold encDoc docToks
  have hopen : ∀ t, lexAux .out ('{' :: t) = (lexAux .out t).map (Tok.lbrace :: ·) :=
    fun _ => rfl
  have hclose : lexAux .out ('}' :: rest) = some (Tok.rbrace :: toks) := by
    have : lexAux .out ('}' :: rest) = (lexAux .out rest).map (Tok.rbrace :: ·) := rfl
    rw [this, h]
    rfl
  rw [List.cons_append, hopen, List.append_assoc, List.singleton_append]
  cases d with
  | nil =>
    simp only [encFields, fieldsToks, List.nil_append]
    rw [hclose]
    rfl
  | cons kv d =>
    simp only [encFields, fieldsToks, List.append_assoc]
    rw [lexAux_field kv _ _ (lexAux_fields ('}' :: rest) _ hclose d)]
    simp

/-- The lexer reads the array of the encoded documents as the tokens of the
documents between brackets. -/
theorem lexAux_docs (docs : List FlatDoc) :
    lexAux .out (arrayText (docs.map encDoc))
      = some (Tok.lbrack :: (docsToks docs ++ [Tok.rbrack])) := by
  unfold arrayText
  have hopen : ∀ t, lexAux .out ('[' :: t) = (lexAux .out t).map (Tok.lbrack :: ·) :=
    fun _ => rfl
  have hclose : lexAux .out [']'] = some [Tok.rbrack] := rfl
  have htail : ∀ ds : List FlatDoc,
      lexAux .out ((ds.map encDoc).flatMap (fun y => [','] ++ y) ++ [']'])
        = some (ds.flatMap (fun x => Tok.comma :: docToks x) ++ [Tok.rbrack]) := by
    intro ds
    induction ds with
    | nil => exact hclose
    | cons d ds ih =>
      simp only [List.map_cons, List.flatMap_cons, List.singleton_append, List.cons_append,
        List.append_assoc, List.nil_append]
      have hcomma : ∀ t, lexAux .out (',' :: t) = (lexAux .out t).map (Tok.comma :: ·) :=
        fun _ => rfl
      simp only [List.singleton_append, List.cons_append, List.nil_append] at ih
      rw [hcomma, lexAux_doc d _ _ ih]
      rfl
  rw [hopen]
  cases docs with
  | nil => rfl
  | cons d ds =>
    rw [List.map_cons, joinWith_cons_flatMap, List.append_assoc, lexAux_doc d _ _ (htail ds)]
    simp [docsToks]

/-- The parser reads the tokens of the fields behind the first one, up to the
closing brace. -/
theorem parseAux_fields (ds : List FlatDoc) (ts : List Tok) :
    ∀ (rest fields : FlatDoc),
      parseAux (.afterValue ds fields)
          (rest.flatMap (fun x => Tok.comma :: fieldToks x) ++ Tok.rbrace :: ts)
        = parseAux (.afterObject ((fields.reverse ++ rest) :: ds)) ts := by
  intro rest
  induction rest with
  | nil =>
    intro fields
    simp only [List.flatMap_nil, List.nil_append, List.append_nil]
    rfl
  | cons kv rest ih =>
    intro fields
    have hstep : parseAux (.afterValue ds fields)
        ((kv :: rest).flatMap (fun x => Tok.comma :: fieldToks x) ++ Tok.rbrace :: ts)
        = parseAux (.afterValue ds ((kv.1, kv.2) :: fields))
            (rest.flatMap (fun x => Tok.comma :: fieldToks x) ++ Tok.rbrace :: ts) := rfl
    rw [hstep, ih]
    simp

/-- The parser reads the tokens of a document behind its opening brace. -/
theorem parseAux_doc (ds : List FlatDoc) (ts : List Tok) (d : FlatDoc) :
    parseAux (.objectOpen ds) (fieldsToks d ++ Tok.rbrace :: ts)
      = parseAux (.afterObject (d :: ds)) ts := by
  cases d with
  | nil => rfl
  | cons kv rest =>
    have hstep : parseAux (.objectOpen ds) (fieldsToks (kv :: rest) ++ Tok.rbrace :: ts)
        = parseAux (.afterValue ds [(kv.1, kv.2)])
            (rest.flatMap (fun x => Tok.comma :: fieldToks x) ++ Tok.rbrace :: ts) := by
      simp only [fieldsToks, fieldToks, List.append_assoc]
      rfl
    rw [hstep, parseAux_fields]
    rfl

/-- The parser reads the tokens of the documents behind the first one, up to
the closing bracket. -/
theorem parseAux_docs_tail :
    ∀ (rest ds : List FlatDoc),
      parseAux (.afterObject ds)
          (rest.flatMap (fun x => Tok.comma :: docToks x) ++ [Tok.rbrack])
        = some (ds.reverse ++ rest) := by
  intro rest
  induction rest with
  | nil =>
    intro ds
    simp only [List.flatMap_nil, List.nil_append, List.append_nil]
    rfl
  | cons d rest ih =>
    intro ds
    have hstep : parseAux (.afterObject ds)
        ((d :: rest).flatMap (fun x => Tok.comma :: docToks x) ++ [Tok.rbrack])
        = parseAux (.objectOpen ds)
            (fieldsToks d ++ Tok.rbrace ::
              (rest.flatMap (fun x => Tok.comma :: docToks x) ++ [Tok.rbrack])) := by
      simp only [List.flatMap_cons, docToks, List.cons_append, List.append_assoc,
        List.singleton_append]
      rfl
    rw [hstep, parseAux_doc, ih]
    simp

/-- The parser reads the tokens of an array of documents as the documents. -/
theorem parseAux_docs (docs : List FlatDoc) :
    parseAux .start (Tok.lbrack :: (docsToks docs ++ [Tok.rbrack])) = some docs := by
  cases docs with
  | nil => rfl
  | cons d rest =>
    have hstep : parseAux .start (Tok.lbrack :: (docsToks (d :: rest) ++ [Tok.rbrack]))
        = parseAux (.objectOpen [])
            (fieldsToks d ++ Tok.rbrace ::
              (rest.flatMap (fun x => Tok.comma :: docToks x) ++ [Tok.rbrack])) := by
      simp only [docsToks, docToks, List.cons_append, List.append_assoc,
        List.singleton_append]
      rfl
    rw [hstep, parseAux_doc, parseAux_docs_tail]
    rfl

/-- The flat codec reads the array of the encodings of documents back as the
documents. -/
theorem flatParse_encDocs (docs : List FlatDoc) :
    flatParse (arrayText (docs.map encDoc)) = some docs := by
  unfold flatParse
  rw [lexAux_docs]
  exact parseAux_docs docs

/-- C7, amended. For every document list (nil included) whose documents'
encodings hold no occurrence of `\u003cignored-diff\u003e`, `docsToExtJSON`
succeeds and `bytesToDocs` of its text succeeds with the same documents in the
same order: this is proved for the codec of the documents with string fields.
For every codec, `docsToExtJSON` returns for such documents the array of the
encodings as `json.Marshal` wrote it, and `bytesToDocs` succeeds on it exactly
with what the decoder reads from it. -/
theorem roundTrip (docs : Option (List FlatDoc))
    (hfree : ∀ d ∈ docs.getD [],
      ¬ escapedMarker <:+: flatCompactAux false false (flatDocString d)) :
    (∃ text, docsToExtJSON flatLib docs = .ok text ∧
      bytesToDocs flatLib text = .ok (some (docs.getD []))) ∧
    (∀ (Doc V : Type) (lib : Lib Doc V) (ds : Option (List Doc)) (elems : List (List Char)),
      List.Forall₂ (fun d e => lib.compact (lib.docString d) = .ok e) (ds.getD []) elems →
      (∀ e ∈ elems, ¬ escapedMarker <:+: e) →
      docsToExtJSON lib ds = .ok (arrayText elems) ∧
      ∀ back, bytesToDocs lib (arrayText elems) = .ok back
        ↔ lib.unmarshalDocs (arrayText elems) = .ok back) := by
  have hgen : ∀ (Doc V : Type) (lib : Lib Doc V) (ds : Option (List Doc))
      (elems : List (List Char)),
      List.Forall₂ (fun d e => lib.compact (lib.docString d) = .ok e) (ds.getD []) elems →
      (∀ e ∈ elems, ¬ escapedMarker <:+: e) →
      docsToExtJSON lib ds = .ok (arrayText elems) := by
    intro Doc V lib ds elems hvalid hfree
    have helems : compactAll lib ((ds.getD []).map lib.docString) = .ok elems :=
      (compactAll_eq_ok_iff lib _ _).2 (List.forall₂_map_left_iff.2 hvalid)
    have hmap : elems.map normalizeMarker = elems :=
      calc elems.map normalizeMarker = elems.map id :=
            List.map_congr_left (fun e he => normalizeMarker_of_not_infix e (hfree e he))
        _ = elems := List.map_id elems
    rw [docsToExtJSON_of_compactAll lib ds elems helems, hmap]
  constructor
  · refine ⟨arrayText ((docs.getD []).map encDoc), ?_, ?_⟩
    · apply hgen
      · rw [List.forall₂_map_right_iff]
        exact List.forall₂_same.2
          (fun d _ => congrArg Except.ok (flatCompactAux_docString d))
      · intro e he
        obtain ⟨d, hd, hde⟩ := List.mem_map.1 he
        rw [← hde, ← flatCompactAux_docString d]
        exact hfree d hd
    · have hread : flatLib.unmarshalDocs (arrayText ((docs.getD []).map encDoc))
          = .ok (some (docs.getD [])) := by
        simp only [flatLib, flatParse_encDocs]
      unfold bytesToDocs
      rw [hread]
  · intro Doc V lib ds elems hvalid hfree2
    refine ⟨hgen Doc V lib ds elems hvalid hfree2, ?_⟩
    intro back
    unfold bytesToDocs
    cases lib.unmarshalDocs (arrayText elems) with
    | error err =>
      constructor <;> intro h <;> cases h
    | ok r => exact Iff.rfl

/-- C7 at two documents, one with the marker `<ignore-diff>` and one with
quotes, a backslash and angle brackets in its value. -/
theorem roundTrip_witness :
    ∃ text,
      docsToExtJSON flatLib
          (some [[("_id", "<ignore-diff>")], [("name", "Jane \"J\\\" <Doe>")]]) = .ok text ∧
      bytesToDocs flatLib text
        = .ok (some ((some [[("_id", "<ignore-diff>")], [("name", "Jane \"J\\\" <Doe>")]] :
            Option (List FlatDoc)).getD [])) :=
  (roundTrip (some [[("_id", "<ignore-diff>")], [("name", "Jane \"J\\\" <Doe>")]])
    (by decide)).1

/-- C10 at the failing input: the expected `_id` is `<ignored-diff>` and the
actual `_id` is a backslash followed by `u003cignored-diff>`. The expected text
has the marker, the actual text is rewritten to `"\<ignore-diff>"`, which is
not JSON, and the exact-contents assertion returns an error. -/
theorem ignoredDiff_backslash_fails :
    docsToExtJSON flatLib (some [[("_id", "<ignored-diff>"), ("name", "John")]])
      = .ok "[\x7b\"_id\":\"<ignore-diff>\",\"name\":\"John\"\x7d]".toList ∧
    flatLib.compact (flatLib.docString [("_id", "\\u003cignored-diff>"), ("name", "John")])
      = .ok "\x7b\"_id\":\"\\\\u003cignored-diff\\u003e\",\"name\":\"John\"\x7d".toList ∧
    docsToExtJSON flatLib (some [[("_id", "\\u003cignored-diff>"), ("name", "John")]])
      = .ok "[\x7b\"_id\":\"\\<ignore-diff>\",\"name\":\"John\"\x7d]".toList ∧
    (memManager.haveOnlyTheseDocumentsAvailableInCollectionOfDatabase memDriver flatLib
        (Context.background : Context FlatDoc) "customer" "default"
        (some ⟨"[\x7b\"_id\": \"<ignored-diff>\", \"name\": \"John\"\x7d]".toList⟩)
        [("customer", [[("_id", "\\u003cignored-diff>"), ("name", "John")]])]).1.2
      ≠ none := by
  decide

/-- C11 at the failing input: the payload parses to exactly the one document
whose value is a backslash followed by `u003cignored-diff>`, the actual
documents are that document, both texts are rewritten to `"\<ignore-diff>"`,
which is not JSON, and both assertions return an error. -/
theorem sameDocuments_backslash_fails :
    bytesToDocs flatLib "[\x7b\"a\": \"\\\\u003cignored-diff>\"\x7d]".toList
      = .ok (some [[("a", "\\u003cignored-diff>")]]) ∧
    docsToExtJSON flatLib (some [[("a", "\\u003cignored-diff>")]])
      = .ok "[\x7b\"a\":\"\\<ignore-diff>\"\x7d]".toList ∧
    (memManager.haveOnlyTheseDocumentsAvailableInCollectionOfDatabase memDriver flatLib
        (Context.background : Context FlatDoc) "customer" "default"
        (some ⟨"[\x7b\"a\": \"\\\\u003cignored-diff>\"\x7d]".toList⟩)
        [("customer", [[("a", "\\u003cignored-diff>")]])]).1.2 ≠ none ∧
    (memManager.haveDocumentsInSearchResult flatLib
        (contextWithDocs .background (some [[("a", "\\u003cignored-diff>")]]))
        (some ⟨"[\x7b\"a\": \"\\\\u003cignored-diff>\"\x7d]".toList⟩)).2 ≠ none := by
  decide

end Mongosteps
